import Mathlib

/-!
Verification of the chttp HTTP server core against its specification.

The development shallowly embeds the C sources:
  * the byte-string utility (`cstring.c`): strings are modelled as `List Char`
    of bytes; all inputs of interest are ASCII, for which the source's
    UTF-8 character indices and byte indices coincide, so one index space
    is used.  `size_t` values are `Nat`, with arithmetic reduced mod `2^64`
    exactly where the C computation can wrap.
  * the HTTP request parser and response serializer (`http.c`),
  * the router (`router.c`),
  * the middleware layer pipeline (`layers.c`) and the built-in layers
    (`builtin.c`),
  * the tag-scoped allocation registry (`palloc.c`): the two global hash
    tables are modelled as bucket lists, and the nondeterministic choice of
    addresses made by `malloc`/`realloc` is passed in as an explicit
    parameter, constrained by freshness hypotheses in the theorems.

Possibly-NULL pointer arguments of the C API are modelled with `Option`.
-/

set_option maxRecDepth 4000

/-- Byte strings: the `String` type of `cstring.c`, restricted to its byte
content.  For the ASCII data handled here `char_len = byte_len`, so a single
`List.length` models both. -/
abbrev Str := List Char

/-- Wrap-around modulus of `size_t` arithmetic. -/
def USIZE : Nat := 2 ^ 64

/-- The value `(size_t)-1` that `string_find_cstr` returns on failure. -/
def SIZE_MAX : Nat := USIZE - 1

/-- Model of `string_equals` / `string_equals_cstr`: byte-length equality
followed by `memcmp`, i.e. list equality. -/
def string_equals (s t : Str) : Bool := s == t

/-- Model of `string_substring str start length`: empty if `start` is past the
end, otherwise the bytes from `start` up to `min (start + length) len`, where
`start + length` is `size_t` addition (it wraps).  (When the wrapped end falls
below `start` the C code would produce a huge `size_t` byte count; `Nat`
truncated subtraction yields the empty string, and the repository never
reaches that case.) -/
def string_substring (s : Str) (start len : Nat) : Str :=
  if s.length ≤ start then []
  else
    let e := min ((start + len) % USIZE) s.length
    (s.drop start).take (e - start)

/-- One probe of the search loop of `string_find_cstr`: whether `pat` occurs
at offset `i` of `s` (the `memcmp(str->data + i, substr, substr_len) == 0`
test). -/
def match_at (s pat : Str) (i : Nat) : Bool :=
  (s.drop i).take pat.length == pat

/-- The scan `for (i = start; i <= len - patlen; i++)` of `string_find_cstr`,
with the number of remaining probes made explicit. -/
def scan_from (s pat : Str) (i : Nat) : Nat → Option Nat
  | 0 => none
  | fuel+1 => if match_at s pat i then some i else scan_from s pat (i+1) fuel

/-- Model of `string_find_cstr`, returning `none` where the C code returns
`SIZE_MAX`: empty needle matches at 0; a start position at or past the end
fails; a needle longer than the remaining bytes fails; otherwise the linear
scan runs. -/
def string_find_cstr_opt (s pat : Str) (start : Nat) : Option Nat :=
  if pat.length = 0 then some 0
  else if s.length ≤ start then none
  else if s.length - start < pat.length then none
  else scan_from s pat start (s.length - pat.length - start + 1)

/-- The raw `size_t` interface of `string_find_cstr` (`SIZE_MAX` on
failure), used where the caller feeds the result into arithmetic. -/
def string_find_cstr (s pat : Str) (start : Nat) : Nat :=
  (string_find_cstr_opt s pat start).getD SIZE_MAX

/-- Model of `string_begins_with`: false when the needle is longer than the
subject, otherwise a `memcmp` over the needle's length. -/
def string_begins_with (s p : Str) : Bool :=
  if s.length < p.length then false else s.take p.length == p

/-- HTTP method enumeration of `http.h` with its C numeric values given by
`Method.val`. -/
inductive Method where
  | HTTP_UNKNOWN
  | HTTP_GET
  | HTTP_POST
  | HTTP_PUT
  | HTTP_DELETE
  | HTTP_PATCH
  | HTTP_OPTIONS
  | HTTP_HEAD
deriving DecidableEq

/-- The enum values assigned in `http.h` (`HTTP_UNKNOWN = 0`, then powers of
two). -/
def Method.val : Method → Nat
  | .HTTP_UNKNOWN => 0
  | .HTTP_GET => 1
  | .HTTP_POST => 2
  | .HTTP_PUT => 4
  | .HTTP_DELETE => 8
  | .HTTP_PATCH => 16
  | .HTTP_OPTIONS => 32
  | .HTTP_HEAD => 64

/-- The `IN_METHODS(methods, method)` macro: `(methods & method) == method`. -/
def IN_METHODS (methods : Nat) (m : Method) : Bool :=
  methods &&& m.val == m.val

/-- HTTP version enumeration of `http.h`. -/
inductive HttpVersion where
  | HTTP_1_0
  | HTTP_1_1
  | HTTP_2_0
  | HTTP_UNKNOWN_VERSION
deriving DecidableEq

/-- A request/response header entry. -/
structure Header where
  key : Str
  value : Str
deriving DecidableEq

/-- The request line of `http.h`. -/
structure RequestLine where
  method : Method
  target : Str
  version : HttpVersion
deriving DecidableEq

/-- The `HttpRequest` value (the allocation tag is part of the registry
model, not of the message model). -/
structure HttpRequest where
  request_line : RequestLine
  headers : List Header
  body : Str
deriving DecidableEq

/-- The state `http_request_new` leaves a request in: method `HTTP_UNKNOWN`,
empty target, version `HTTP_UNKNOWN_VERSION`, no headers, empty body. -/
def http_request_new : HttpRequest :=
  { request_line := { method := .HTTP_UNKNOWN, target := [], version := .HTTP_UNKNOWN_VERSION },
    headers := [], body := [] }

/-- The request-line branch of `http_request_parse` (taken while
`request_line.method == HTTP_UNKNOWN`): method token up to the first space,
target between the first and second spaces, version token compared against
`HTTP/1.1` and `HTTP/2.0`.  All index arithmetic is `size_t`, and the
failed-find sentinel `SIZE_MAX` flows through it exactly as in the source. -/
def http_parse_request_line (req : HttpRequest) (line : Str) : HttpRequest :=
  let mfind := string_find_cstr line [' '] 0
  let method_str := string_substring line 0 mfind
  let method :=
    if string_equals method_str "GET".toList then Method.HTTP_GET
    else if string_equals method_str "POST".toList then Method.HTTP_POST
    else if string_equals method_str "PUT".toList then Method.HTTP_PUT
    else if string_equals method_str "DELETE".toList then Method.HTTP_DELETE
    else if string_equals method_str "PATCH".toList then Method.HTTP_PATCH
    else if string_equals method_str "OPTIONS".toList then Method.HTTP_OPTIONS
    else if string_equals method_str "HEAD".toList then Method.HTTP_HEAD
    else req.request_line.method
  let target_start := (mfind + 1) % USIZE
  let target_end := string_find_cstr line [' '] target_start
  let target := string_substring line target_start (target_end - target_start)
  let version_start := (target_end + 1) % USIZE
  let ver_str := string_substring line version_start (line.length - version_start)
  let version :=
    if string_equals ver_str "HTTP/1.1".toList then HttpVersion.HTTP_1_1
    else if string_equals ver_str "HTTP/2.0".toList then HttpVersion.HTTP_2_0
    else req.request_line.version
  { req with request_line := { method := method, target := target, version := version } }

/-- The header branch of `http_request_parse`: split on the first `": "`;
a line without the separator is dropped silently. -/
def http_parse_header_line (req : HttpRequest) (line : Str) : HttpRequest :=
  match string_find_cstr_opt line (':' :: [' ']) 0 with
  | none => req
  | some colon_pos =>
    let key := string_substring line 0 colon_pos
    let value := string_substring line (colon_pos + 2) (line.length - colon_pos - 2)
    { req with headers := req.headers ++ [{ key := key, value := value }] }

/-- The trailing body assignment of `http_request_parse`: everything after
the header-terminating empty line, if any bytes remain. -/
def http_parse_body (raw : Str) (req : HttpRequest) (start : Nat) : HttpRequest :=
  if start < raw.length then
    { req with body := string_substring raw start (raw.length - start) }
  else req

/-- The CRLF-splitting loop of `http_request_parse`.  The loop advances
`start` past each CRLF; the fuel argument only bounds the iteration count and
is immaterial once it is at least `raw.length`
(`http_parse_lines_fuel_irrel`), because each iteration moves `start` forward
by at least two. -/
def http_parse_lines (raw : Str) : Nat → HttpRequest → Nat → HttpRequest
  | 0, req, start => http_parse_body raw req start
  | fuel+1, req, start =>
    match string_find_cstr_opt raw ('\r' :: ['\n']) start with
    | none => http_parse_body raw req start
    | some e =>
      let line := string_substring raw start (e - start)
      let start1 := e + 2
      if line.length = 0 then http_parse_body raw req start1
      else
        let req1 :=
          if req.request_line.method = Method.HTTP_UNKNOWN
          then http_parse_request_line req line
          else http_parse_header_line req line
        http_parse_lines raw fuel req1 start1

/-- Model of `http_request_parse(request, raw)`.  The C function returns
`false` only on its initial NULL checks; for non-NULL arguments it always
runs the line loop to completion and returns `true`. -/
def http_request_parse (request : Option HttpRequest) (raw : Option Str) :
    Option HttpRequest × Bool :=
  match request, raw with
  | none, _ => (none, false)
  | some req, none => (some req, false)
  | some req, some raw => (some (http_parse_lines raw raw.length req 0), true)

theorem scan_from_some {s pat : Str} {i fuel e : Nat}
    (h : scan_from s pat i fuel = some e) :
    i ≤ e ∧ match_at s pat e = true := by
  induction fuel generalizing i with
  | zero => simp [scan_from] at h
  | succ n ih =>
    by_cases hm : match_at s pat i
    · simp [scan_from, hm] at h
      subst h
      exact ⟨Nat.le_refl _, hm⟩
    · simp [scan_from, hm] at h
      obtain ⟨hle, hmat⟩ := ih h
      exact ⟨Nat.le_trans (Nat.le_succ i) hle, hmat⟩

theorem match_at_le {s pat : Str} {e : Nat} (h : match_at s pat e = true) :
    e + pat.length ≤ s.length ∨ pat.length = 0 := by
  unfold match_at at h
  have hlen : ((s.drop e).take pat.length).length = pat.length := by
    rw [eq_of_beq h]
  rw [List.length_take, List.length_drop] at hlen
  rcases Nat.le_total pat.length (s.length - e) with hc | hc
  · by_cases he : e ≤ s.length
    · exact Or.inl (by omega)
    · have : s.length - e = 0 := by omega
      rw [this] at hc
      exact Or.inr (by omega)
  · have : min pat.length (s.length - e) = s.length - e := Nat.min_eq_right hc
    rw [this] at hlen
    by_cases hp : pat.length = 0
    · exact Or.inr hp
    · exact Or.inl (by omega)

/-- Bounds delivered by a successful `string_find_cstr` with a non-empty
needle: the hit is at or after `start` and the whole needle fits before the
end of the subject. -/
theorem string_find_cstr_opt_some {s pat : Str} {start e : Nat}
    (hpat : pat.length ≠ 0) (h : string_find_cstr_opt s pat start = some e) :
    start ≤ e ∧ e + pat.length ≤ s.length := by
  unfold string_find_cstr_opt at h
  rw [if_neg hpat] at h
  by_cases h1 : s.length ≤ start
  · simp [h1] at h
  · rw [if_neg h1] at h
    by_cases h2 : s.length - start < pat.length
    · simp [h2] at h
    · rw [if_neg h2] at h
      obtain ⟨hle, hmat⟩ := scan_from_some h
      rcases match_at_le hmat with hb | hb
      · exact ⟨hle, hb⟩
      · exact absurd hb hpat

/-- Fuel-irrelevance of the parse loop: any fuel at least `raw.length - start`
computes the same result, so `http_request_parse`'s choice of `raw.length`
reproduces the termination behaviour of the C `while` loop. -/
theorem http_parse_lines_fuel_irrel (raw : Str) :
    ∀ f1 : Nat, ∀ f2 req start, raw.length ≤ f1 + start → raw.length ≤ f2 + start →
      http_parse_lines raw f1 req start = http_parse_lines raw f2 req start := by
  intro f1
  induction f1 with
  | zero =>
    intro f2 req start h1 h2
    have hnone : string_find_cstr_opt raw ('\r' :: ['\n']) start = none := by
      unfold string_find_cstr_opt
      have hs : raw.length ≤ start := by omega
      simp [hs]
    cases f2 with
    | zero => rfl
    | succ g => simp [http_parse_lines, hnone]
  | succ g ih =>
    intro f2 req start h1 h2
    cases f2 with
    | zero =>
      have hnone : string_find_cstr_opt raw ('\r' :: ['\n']) start = none := by
        unfold string_find_cstr_opt
        have hs : raw.length ≤ start := by omega
        simp [hs]
      simp [http_parse_lines, hnone]
    | succ g2 =>
      show http_parse_lines raw (g+1) req start = http_parse_lines raw (g2+1) req start
      unfold http_parse_lines
      cases hf : string_find_cstr_opt raw ('\r' :: ['\n']) start with
      | none => rfl
      | some e =>
        obtain ⟨hle, hend⟩ := string_find_cstr_opt_some (by decide) hf
        simp only []
        by_cases hline : (string_substring raw start (e - start)).length = 0
        · simp [hline]
        · simp only [if_neg hline]
          exact ih g2 _ (e + 2) (by omega) (by omega)

/-- The `Encoding` enum of `http.h`; zero-initialized responses start at
`COMPRESSION_NONE`. -/
inductive Encoding where
  | COMPRESSION_NONE
  | COMPRESSION_GZIP
deriving DecidableEq

/-- The `HttpResponse` value: `status` models the `char* status` line (NULL
as the empty string), `raw_body` the gzip output buffer together with
`raw_body_len`. -/
structure HttpResponse where
  status : Str
  headers : List Header
  encoding : Encoding
  body : Str
  raw_body : Str
deriving DecidableEq

/-- The state `http_response_new` leaves a response in (`pmalloc` zeroes the
struct, so the encoding starts as `COMPRESSION_NONE`). -/
def http_response_new : HttpResponse :=
  { status := [], headers := [], encoding := .COMPRESSION_NONE, body := [], raw_body := [] }

/-- The response bytes built by `http_response_send` and handed to `send`:
status line, CRLF, each header as `key: value` with CRLF, a blank line, then
either the plain body or the compressed `raw_body` depending on `encoding`.
The socket write itself is I/O outside the model. -/
def http_response_send (r : HttpResponse) : Str :=
  let b : Str := []
  let b := b ++ r.status
  let b := b ++ '\r' :: ['\n']
  let b := r.headers.foldl
    (fun b h => b ++ h.key ++ ':' :: [' '] ++ h.value ++ '\r' :: ['\n']) b
  let b := b ++ '\r' :: ['\n']
  match r.encoding with
  | .COMPRESSION_NONE => b ++ r.body
  | .COMPRESSION_GZIP => b ++ r.raw_body

/-- Model of `http_request_get_header`: linear scan for the first header
whose key is byte-equal to the requested name. -/
def http_request_get_header (req : HttpRequest) (key : Str) : Option Header :=
  req.headers.find? (fun h => string_equals h.key key)

/-- The status line the router writes on a miss. -/
def HTTP_404 : Str := "HTTP/1.1 404 Not Found".toList

/-- A route of `router.h`: the handler models the `RouteHandler` function
pointer as a response transformer. -/
structure Route where
  path : Str
  methods : Nat
  handler : HttpRequest → HttpResponse → HttpResponse
  exact_only : Bool

/-- Model of `router_route`: scan the route list in registration order; skip
a route when the `IN_METHODS` test fails; dispatch on byte-exact path
equality for `exact_only` routes and on a path-begins-with test otherwise;
on a miss set the 404 status and return false. -/
def router_route : List Route → HttpRequest → HttpResponse → HttpResponse × Bool
  | [], _, res => ({ res with status := HTTP_404 }, false)
  | r :: rest, req, res =>
    if ¬ (IN_METHODS r.methods req.request_line.method) then router_route rest req res
    else if r.exact_only && string_equals r.path req.request_line.target then
      (r.handler req res, true)
    else if !r.exact_only && string_begins_with req.request_line.target r.path then
      (r.handler req res, true)
    else router_route rest req res

/-- The match condition a single route imposes, as the spec phrases it:
method-mask membership AND (exact path equality or path-begins-with,
according to `exact_only`). -/
def route_matches (req : HttpRequest) (r : Route) : Bool :=
  IN_METHODS r.methods req.request_line.method &&
    (if r.exact_only then string_equals r.path req.request_line.target
     else string_begins_with req.request_line.target r.path)

/-- Characterization of the router: it dispatches exactly the first route
(in registration order) whose match condition holds, and 404s otherwise. -/
theorem router_route_eq_find (routes : List Route) (req : HttpRequest) (res : HttpResponse) :
    router_route routes req res =
      match routes.find? (route_matches req) with
      | some r => (r.handler req res, true)
      | none => ({ res with status := HTTP_404 }, false) := by
  induction routes with
  | nil => rfl
  | cons r rest ih =>
    by_cases hm : IN_METHODS r.methods req.request_line.method
    · by_cases hex : r.exact_only
      · by_cases heq : string_equals r.path req.request_line.target
        · simp [router_route, List.find?, route_matches, hm, hex, heq]
        · simp [router_route, List.find?, route_matches, hm, hex, heq, ih]
      · by_cases hbw : string_begins_with req.request_line.target r.path
        · simp [router_route, List.find?, route_matches, hm, hex, hbw]
        · simp [router_route, List.find?, route_matches, hm, hex, hbw, ih]
    · simp [router_route, List.find?, route_matches, hm, ih]

/-- The lifecycle stages of `layers.h`. -/
inductive LayerLC where
  | LAYER_INIT
  | LAYER_PRE_ROUTE
  | LAYER_POST_ROUTE
  | LAYER_PRE_RESPONSE
  | LAYER_POST_RESPONSE
  | LAYER_CLEANUP
deriving DecidableEq

/-- The request/response pair a layer function reads and mutates through its
two pointer arguments. -/
abbrev Exchange := HttpRequest × HttpResponse

/-- A registered layer: `fn` models the `LayerFn` function pointer as a
state transformer returning the C function's boolean. -/
structure Layer where
  name : Str
  when : LayerLC
  fn : Exchange → Exchange × Bool
  can_fail : Bool

/-- Model of `layers_apply`: iterate the registered layers in order, skip
stage mismatches, ignore a false return when `can_fail` is set, stop with
`false` on a hard failure.  Mutations made by a failing layer persist, as
they do through the C pointers. -/
def layers_apply : List Layer → LayerLC → Exchange → Exchange × Bool
  | [], _, ex => (ex, true)
  | l :: rest, stage, ex =>
    if l.when ≠ stage then layers_apply rest stage ex
    else
      let r := l.fn ex
      if r.2 then layers_apply rest stage r.1
      else if l.can_fail then layers_apply rest stage r.1
      else (r.1, false)

/-- Running a stage over layers already known to belong to it. -/
def layers_run : List Layer → Exchange → Exchange × Bool
  | [], ex => (ex, true)
  | l :: rest, ex =>
    let r := l.fn ex
    if r.2 then layers_run rest r.1
    else if l.can_fail then layers_run rest r.1
    else (r.1, false)

/-- Stage selection is a filter: `layers_apply` behaves as `layers_run` on
the sub-list of layers registered for the requested stage, in registration
order. -/
theorem layers_apply_eq_run (ls : List Layer) (stage : LayerLC) (ex : Exchange) :
    layers_apply ls stage ex = layers_run (ls.filter (fun l => l.when == stage)) ex := by
  induction ls generalizing ex with
  | nil => rfl
  | cons l rest ih =>
    by_cases hw : l.when = stage
    · simp [layers_apply, layers_run, List.filter, hw, ih]
    · have : (l.when == stage) = false := by simp [hw]
      simp [layers_apply, List.filter, this, hw, ih]

/-- A layer with `can_fail` set never interrupts its stage: iteration
continues with whatever state the layer produced, whether it succeeded or
failed. -/
theorem layers_apply_cons_soft (l : Layer) (rest : List Layer) (stage : LayerLC)
    (ex : Exchange) (hw : l.when = stage) (hc : l.can_fail = true) :
    layers_apply (l :: rest) stage ex = layers_apply rest stage (l.fn ex).1 := by
  by_cases hr : (l.fn ex).2
  · simp [layers_apply, hw, hr]
  · simp [layers_apply, hw, hr, hc]

/-- CRLF bytes. -/
def CRLF : Str := '\r' :: ['\n']

/-- Claim C4: parsing `GET /echo/hi HTTP/1.1\r\nHost: x\r\n\r\nbody` yields
method GET, target `/echo/hi`, version 1.1, exactly the one header
`Host: x`, and body `body`. -/
theorem parse_get_echo_hi :
    http_request_parse (some http_request_new)
        (some "GET /echo/hi HTTP/1.1\r\nHost: x\r\n\r\nbody".toList) =
      (some { request_line := { method := .HTTP_GET, target := "/echo/hi".toList,
                                version := .HTTP_1_1 },
              headers := [{ key := "Host".toList, value := "x".toList }],
              body := "body".toList }, true) := by
  decide

/-- Counterexample to claim C5 as stated: on the empty (non-NULL) input the
parse operation reports success, not failure. -/
theorem parse_empty_input_returns_true :
    (http_request_parse (some http_request_new) (some [])).2 = true := by decide

/-- Claim C5 (amended): `http_request_parse` reports failure exactly when the
request object or the raw buffer is NULL; every non-NULL input — in
particular an empty one or one whose first line is malformed — parses with a
success result. -/
theorem parse_false_iff_null (request : Option HttpRequest) (raw : Option Str) :
    (http_request_parse request raw).2 = false ↔ request = none ∨ raw = none := by
  cases request <;> cases raw <;> simp [http_request_parse]

/-- First demo handler for the router scenario: marks the response body. -/
def h1_files : HttpRequest → HttpResponse → HttpResponse :=
  fun _ res => { res with body := "h1".toList }

/-- Second demo handler for the router scenario. -/
def h2_readme : HttpRequest → HttpResponse → HttpResponse :=
  fun _ res => { res with body := "h2".toList }

/-- The route table of the spec's router test: a non-exact `/files` route for
GET|POST registered before an exact `/files/readme` route for GET. -/
def files_routes : List Route :=
  [ { path := "/files".toList,
      methods := Method.val .HTTP_GET ||| Method.val .HTTP_POST,
      handler := h1_files, exact_only := false },
    { path := "/files/readme".toList,
      methods := Method.val .HTTP_GET,
      handler := h2_readme, exact_only := true } ]

/-- A GET request for a given target with no headers or body. -/
def req_get (target : Str) : HttpRequest :=
  { request_line := { method := .HTTP_GET, target := target, version := .HTTP_1_1 },
    headers := [], body := [] }

/-- Claim C6: the router invokes exactly the handler of the first route (in
registration order) whose match condition holds, returning true, and sets
404/false when none matches (first conjunct); in particular with
`[/files (prefix), /files/readme (exact)]` a GET to `/files/readme` runs the
first route's handler `h1_files` (second conjunct). -/
theorem router_first_match_wins :
    (∀ (routes : List Route) (req : HttpRequest) (res : HttpResponse),
      router_route routes req res =
        match routes.find? (route_matches req) with
        | some r => (r.handler req res, true)
        | none => ({ res with status := HTTP_404 }, false)) ∧
    router_route files_routes (req_get "/files/readme".toList) http_response_new =
      ({ http_response_new with body := "h1".toList }, true) := by
  constructor
  · exact router_route_eq_find
  · decide

/-- A route whose method mask is GET only, with an exact path; used to show
that an UNKNOWN-method request is still dispatched. -/
def route_x_get : Route :=
  { path := "/x".toList, methods := Method.val .HTTP_GET,
    handler := fun _ res => { res with body := "ran".toList }, exact_only := true }

/-- A request whose method is UNKNOWN and whose target is `/x`. -/
def req_unknown_x : HttpRequest :=
  { request_line := { method := .HTTP_UNKNOWN, target := "/x".toList, version := .HTTP_1_1 },
    headers := [], body := [] }

/-- Counterexample to claim C7 as stated: a request with method UNKNOWN is
dispatched to the handler of a GET-only route (the handler's mark appears in
the response and the router reports a match), because
`IN_METHODS(mask, 0) = ((mask & 0) == 0)` holds for every mask. -/
theorem unknown_method_is_dispatched :
    router_route [route_x_get] req_unknown_x http_response_new =
      ({ http_response_new with body := "ran".toList }, true) := by
  decide

/-- Claim C7 (amended): a handler is dispatched only for a route whose
`IN_METHODS` mask test passes in addition to the path condition (first
conjunct); but since `HTTP_UNKNOWN` has value 0, the mask test
`(mask & 0) == 0` holds for every route, so an UNKNOWN-method request can be
dispatched whenever some route's path condition holds (second conjunct). -/
theorem dispatch_requires_method_mask :
    (∀ (routes : List Route) (req : HttpRequest) (res res1 : HttpResponse),
      router_route routes req res = (res1, true) →
      ∃ r ∈ routes, route_matches req r = true ∧
        IN_METHODS r.methods req.request_line.method = true ∧
        res1 = r.handler req res) ∧
    (∀ mask : Nat, IN_METHODS mask Method.HTTP_UNKNOWN = true) := by
  constructor
  · intro routes req res res1 h
    rw [router_route_eq_find] at h
    cases hf : routes.find? (route_matches req) with
    | none => rw [hf] at h; simp at h
    | some r =>
      rw [hf] at h
      refine ⟨r, List.mem_of_find?_eq_some hf, List.find?_some hf, ?_, ?_⟩
      · have hm := List.find?_some hf
        unfold route_matches at hm
        exact (Bool.and_eq_true _ _ |>.mp hm).1
      · exact (Prod.mk.injEq _ _ _ _ ▸ h).1.symm
  · intro mask
    simp [IN_METHODS, Method.val]

/-- Witness for the amended claim C7 at a concrete dispatch. -/
theorem dispatch_requires_method_mask_witness :
    ∃ r ∈ [route_x_get], route_matches req_unknown_x r = true ∧
      IN_METHODS r.methods req_unknown_x.request_line.method = true ∧
      { http_response_new with body := "ran".toList } = r.handler req_unknown_x http_response_new :=
  dispatch_requires_method_mask.1 [route_x_get] req_unknown_x http_response_new _ (by decide)

/-- Demo POST_ROUTE layer A: fails (returns false) but may fail; marks the
response body so its run is observable. -/
def layerA : Layer :=
  { name := "A".toList, when := .LAYER_POST_ROUTE,
    fn := fun ex => ((ex.1, { ex.2 with body := ex.2.body ++ "A".toList }), false),
    can_fail := true }

/-- Demo POST_ROUTE layer B: fails and may not fail. -/
def layerB : Layer :=
  { name := "B".toList, when := .LAYER_POST_ROUTE,
    fn := fun ex => ((ex.1, { ex.2 with body := ex.2.body ++ "B".toList }), false),
    can_fail := false }

/-- Demo POST_ROUTE layer C: succeeds. -/
def layerC : Layer :=
  { name := "C".toList, when := .LAYER_POST_ROUTE,
    fn := fun ex => ((ex.1, { ex.2 with body := ex.2.body ++ "C".toList }), true),
    can_fail := true }

/-- Claim C8: `layers_apply` runs exactly the layers of the requested stage
in registration order (first conjunct); a false return with `can_fail`
continues with the failing layer's state (second conjunct); a false return
without `can_fail` stops the stage at once with result false (third
conjunct); and on the stage `[A soft-fails, B hard-fails, C succeeds]` the
trace shows A and B ran, C did not, and `apply` returned false (fourth
conjunct). -/
theorem layers_apply_failure_discipline :
    (∀ (ls : List Layer) (stage : LayerLC) (ex : Exchange),
      layers_apply ls stage ex = layers_run (ls.filter (fun l => l.when == stage)) ex) ∧
    (∀ (l : Layer) (rest : List Layer) (stage : LayerLC) (ex : Exchange),
      l.when = stage → l.can_fail = true → (l.fn ex).2 = false →
      layers_apply (l :: rest) stage ex = layers_apply rest stage (l.fn ex).1) ∧
    (∀ (l : Layer) (rest : List Layer) (stage : LayerLC) (ex : Exchange),
      l.when = stage → l.can_fail = false → (l.fn ex).2 = false →
      layers_apply (l :: rest) stage ex = ((l.fn ex).1, false)) ∧
    layers_apply [layerA, layerB, layerC] .LAYER_POST_ROUTE (http_request_new, http_response_new) =
      ((http_request_new, { http_response_new with body := "AB".toList }), false) := by
  refine ⟨layers_apply_eq_run, ?_, ?_, by decide⟩
  · intro l rest stage ex hw hc hr
    simp [layers_apply, hw, hr, hc]
  · intro l rest stage ex hw hc hr
    simp [layers_apply, hw, hr, hc]

/-- Witness for claim C8's conditional conjuncts at a concrete layer. -/
theorem layers_apply_failure_discipline_witness :
    layers_apply [layerA] .LAYER_POST_ROUTE (http_request_new, http_response_new) =
        layers_apply [] .LAYER_POST_ROUTE
          (layerA.fn (http_request_new, http_response_new)).1 ∧
    layers_apply [layerB] .LAYER_POST_ROUTE (http_request_new, http_response_new) =
        ((layerB.fn (http_request_new, http_response_new)).1, false) :=
  ⟨layers_apply_failure_discipline.2.1 layerA [] .LAYER_POST_ROUTE
      (http_request_new, http_response_new) rfl rfl (by decide),
   layers_apply_failure_discipline.2.2.1 layerB [] .LAYER_POST_ROUTE
      (http_request_new, http_response_new) rfl rfl (by decide)⟩

theorem foldl_append_line (f : Header → Str) (l : List Header) (b : Str) :
    l.foldl (fun acc h => acc ++ f h) b = b ++ (l.map f).flatten := by
  induction l generalizing b with
  | nil => simp
  | cons h t ih => simp [List.foldl, ih, List.append_assoc]

/-- Claim C9: the serializer emits exactly the status line, CRLF, each
stored header as `key: value` with CRLF in order, one blank CRLF, then the
plain body for encoding NONE or the compressed bytes for GZIP. -/
theorem response_send_layout (r : HttpResponse) :
    http_response_send r =
      r.status ++ CRLF ++
        (r.headers.map (fun h => h.key ++ ": ".toList ++ h.value ++ CRLF)).flatten ++
        CRLF ++
        (match r.encoding with
         | .COMPRESSION_NONE => r.body
         | .COMPRESSION_GZIP => r.raw_body) := by
  unfold http_response_send
  have hf := foldl_append_line
    (fun h => h.key ++ ": ".toList ++ h.value ++ CRLF) r.headers
    (([] : Str) ++ r.status ++ '\r' :: ['\n'])
  cases he : r.encoding with
  | COMPRESSION_NONE =>
    simp only [he]
    rw [show (fun (b : Str) (h : Header) => b ++ h.key ++ ':' :: [' '] ++ h.value ++ '\r' :: ['\n']) =
          (fun (b : Str) (h : Header) => b ++ (h.key ++ ": ".toList ++ h.value ++ CRLF)) by
        funext b h
        simp [CRLF, List.append_assoc]]
    rw [hf]
    simp [CRLF, List.append_assoc]
  | COMPRESSION_GZIP =>
    simp only [he]
    rw [show (fun (b : Str) (h : Header) => b ++ h.key ++ ':' :: [' '] ++ h.value ++ '\r' :: ['\n']) =
          (fun (b : Str) (h : Header) => b ++ (h.key ++ ": ".toList ++ h.value ++ CRLF)) by
        funext b h
        simp [CRLF, List.append_assoc]]
    rw [hf]
    simp [CRLF, List.append_assoc]

/-- Model of `string_trim str chars`: count leading members of `chars`, then
trailing members of the rest, and take the substring between.  (`strchr`
membership over ASCII trim sets is list membership.) -/
def string_trim (s : Str) (chars : Str) : Str :=
  let start := (s.takeWhile (fun c => chars.contains c)).length
  let stop := s.length - ((s.drop start).reverse.takeWhile (fun c => chars.contains c)).length
  string_substring s start (stop - start)

/-- The NULL-propagating wrapper of `string_trim` (`if (!str) return str`). -/
def string_trim_opt (s : Option Str) (chars : Str) : Option Str :=
  match s with
  | none => none
  | some t => some (string_trim t chars)

/-- The delimiter-scanning loop of `string_isplit`, with explicit fuel (the
C loop advances by the delimiter's length each iteration; the call sites use
non-empty delimiters, so `s.length + 1` probes suffice). -/
def string_isplit_loop (s delim : Str) (idx : Nat) : Nat → Nat → Nat → Option Str
  | 0, start, count =>
    if count = idx then some (string_substring s start (s.length - start)) else none
  | fuel+1, start, count =>
    match string_find_cstr_opt s delim start with
    | none =>
      if count = idx then some (string_substring s start (s.length - start)) else none
    | some e =>
      if count = idx then some (string_substring s start (e - start))
      else string_isplit_loop s delim idx fuel (e + delim.length) (count + 1)

/-- Model of `string_isplit str delim index`: the `index`-th delimiter-separated
piece, the tail piece after the last delimiter when the count lands on
`index`, and NULL (`none`) for an out-of-range index or NULL argument. -/
def string_isplit (s : Option Str) (delim : Str) (idx : Nat) : Option Str :=
  match s with
  | none => none
  | some str => string_isplit_loop str delim idx (str.length + 1) 0 0

/-- The do/while of `content_encoding_layer`: walk comma-separated tokens of
the `Accept-Encoding` value, trimming spaces, until a token equals `gzip`
(returning it) or the pieces run out (returning NULL). -/
def find_gzip_token (value : Str) : Nat → Nat → Option Str
  | 0, _ => none
  | fuel+1, idx =>
    match string_trim_opt (string_isplit (some value) [','] idx) [' '] with
    | none => none
    | some enc =>
      if string_equals enc "gzip".toList then some enc
      else find_gzip_token value fuel (idx + 1)

/-- Model of `content_encoding_layer` from `builtin.c`.  The gzip codec is
the excluded pure collaborator `compress`; as in the source, a compressor
yielding no output fails the layer after the Content-Encoding header and the
GZIP flag were already applied (partial mutation persists). -/
def content_encoding_layer (compress : Str → Str) : Exchange → Exchange × Bool :=
  fun ex =>
    let req := ex.1
    let res := ex.2
    match http_request_get_header req "Accept-Encoding".toList with
    | none => ((req, res), false)
    | some header =>
      match find_gzip_token header.value (header.value.length + 2) 0 with
      | none => ((req, res), false)
      | some enc =>
        let res1 := { res with
          headers := res.headers ++ [{ key := "Content-Encoding".toList, value := enc }],
          encoding := .COMPRESSION_GZIP }
        let out := compress res1.body
        if out.length = 0 then ((req, res1), false)
        else
          let res2 := { res1 with
            raw_body := out,
            headers := res1.headers ++
              [{ key := "Content-Length".toList, value := (Nat.repr out.length).toList }] }
          ((req, res2), true)

/-- Model of `content_length_layer`: a no-op under GZIP (the encoding layer
already wrote the header), otherwise appends `Content-Length` with the
body's byte length; always succeeds. -/
def content_length_layer : Exchange → Exchange × Bool :=
  fun ex =>
    let req := ex.1
    let res := ex.2
    match res.encoding with
    | .COMPRESSION_GZIP => ((req, res), true)
    | .COMPRESSION_NONE =>
      ((req, { res with headers := res.headers ++
          [{ key := "Content-Length".toList, value := (Nat.repr res.body.length).toList }] }), true)

/-- Model of `connection_close_layer`: echo `Connection: close` into the
response when the request carries it; always succeeds. -/
def connection_close_layer : Exchange → Exchange × Bool :=
  fun ex =>
    let req := ex.1
    let res := ex.2
    match http_request_get_header req "Connection".toList with
    | some h =>
      if string_equals h.value "close".toList then
        ((req, { res with headers := res.headers ++
            [{ key := "Connection".toList, value := "close".toList }] }), true)
      else ((req, res), true)
    | none => ((req, res), true)

/-- Model of `request_memory_usage_layer`: prints the tag's registry size
and always succeeds without touching the exchange. -/
def request_memory_usage_layer : Exchange → Exchange × Bool := fun ex => (ex, true)

/-- Model of `logging_layer_preroute_basic` (printing only). -/
def logging_layer_preroute_basic : Exchange → Exchange × Bool := fun ex => (ex, true)

/-- Model of `logging_layer_postroute_basic` (printing only). -/
def logging_layer_postroute_basic : Exchange → Exchange × Bool := fun ex => (ex, true)

/-- Model of `logging_layer_preroute_verbose` (printing only). -/
def logging_layer_preroute_verbose : Exchange → Exchange × Bool := fun ex => (ex, true)

/-- Model of `logging_layer_postroute_verbose` (printing only). -/
def logging_layer_postroute_verbose : Exchange → Exchange × Bool := fun ex => (ex, true)

/-- The layer registrations performed by `http_server_add_builtins`, in
order (the route registrations live in the router model). -/
def builtin_layers (verbose : Bool) (compress : Str → Str) : List Layer :=
  (if verbose then
    [ { name := "logging-preroute".toList, when := .LAYER_PRE_ROUTE,
        fn := logging_layer_preroute_verbose, can_fail := true },
      { name := "logging-postroute".toList, when := .LAYER_POST_ROUTE,
        fn := logging_layer_postroute_verbose, can_fail := true } ]
  else
    [ { name := "logging-preroute".toList, when := .LAYER_PRE_ROUTE,
        fn := logging_layer_preroute_basic, can_fail := true },
      { name := "logging-postroute".toList, when := .LAYER_POST_ROUTE,
        fn := logging_layer_postroute_basic, can_fail := true } ]) ++
  [ { name := "content-encoding".toList, when := .LAYER_POST_ROUTE,
      fn := content_encoding_layer compress, can_fail := true },
    { name := "content-length".toList, when := .LAYER_POST_ROUTE,
      fn := content_length_layer, can_fail := true },
    { name := "connection-close".toList, when := .LAYER_POST_ROUTE,
      fn := connection_close_layer, can_fail := true },
    { name := "request-memory-usage".toList, when := .LAYER_POST_ROUTE,
      fn := request_memory_usage_layer, can_fail := true } ]

/-- Claim C10: without an `Accept-Encoding` request header the
content-encoding layer fails immediately and leaves request and response
untouched (first conjunct); since `http_server_add_builtins` registers it
with `can_fail = true`, the POST_ROUTE stage still completes and
`layers_apply` reports success (second conjunct). -/
theorem content_encoding_soft_failure (verbose : Bool) (compress : Str → Str)
    (req : HttpRequest) (res : HttpResponse)
    (hae : http_request_get_header req "Accept-Encoding".toList = none) :
    content_encoding_layer compress (req, res) = ((req, res), false) ∧
    (layers_apply (builtin_layers verbose compress) .LAYER_POST_ROUTE (req, res)).2 = true := by
  constructor
  · unfold content_encoding_layer
    simp only []
    rw [hae]
  · have step : ∀ (l : Layer) (rest : List Layer) (ex : Exchange),
        l.can_fail = true →
        layers_apply (l :: rest) .LAYER_POST_ROUTE ex =
          if l.when = .LAYER_POST_ROUTE
          then layers_apply rest .LAYER_POST_ROUTE (l.fn ex).1
          else layers_apply rest .LAYER_POST_ROUTE ex := by
      intro l rest ex hc
      by_cases hw : l.when = LayerLC.LAYER_POST_ROUTE
      · rw [if_pos hw]
        exact layers_apply_cons_soft l rest _ ex hw hc
      · simp [layers_apply, hw]
    cases verbose <;>
      simp only [builtin_layers, Bool.false_eq_true, if_false, if_true, List.cons_append,
        List.nil_append] <;>
      rw [step, step, step, step, step, step] <;>
      simp [layers_apply]

/-- Witness for claim C10 on a concrete request without Accept-Encoding. -/
theorem content_encoding_soft_failure_witness :
    content_encoding_layer (fun s => s) (req_get "/x".toList, http_response_new) =
        ((req_get "/x".toList, http_response_new), false) ∧
    (layers_apply (builtin_layers false (fun s => s)) .LAYER_POST_ROUTE
        (req_get "/x".toList, http_response_new)).2 = true :=
  content_encoding_soft_failure false (fun s => s) (req_get "/x".toList)
    http_response_new (by decide)

/-- The tracking record of `alloc.h`: pointer, size, owning tag.  Addresses
and tags are machine words, modelled as `Nat` with NULL as 0; the intrusive
`next` chain becomes the bucket list that holds the record. -/
structure alloc_info where
  ptr : Nat
  size : Nat
  tag : Nat
deriving DecidableEq

/-- A tag table entry of `alloc.h`: the tag and its member pointer array
(`count`/`capacity` are the list length and an allocation detail). -/
structure tag_entry where
  tag : Nat
  ptrs : List Nat
deriving DecidableEq

/-- The global allocator state after `allocator_init_once`: the two chained
hash tables and the two counters. -/
structure AllocState where
  alloc_table : List (List alloc_info)
  tag_table : List (List tag_entry)
  alloc_count : Nat
  tag_count : Nat
deriving DecidableEq

/-- The table sizes of `alloc.h` (the tables are never resized). -/
def ALLOC_TABLE_INITIAL_SIZE : Nat := 256

/-- Initial size of the tag table. -/
def TAG_TABLE_INITIAL_SIZE : Nat := 32

/-- The state `allocator_init_once` establishes: empty buckets, zero
counts. -/
def allocator_init : AllocState :=
  { alloc_table := List.replicate ALLOC_TABLE_INITIAL_SIZE [],
    tag_table := List.replicate TAG_TABLE_INITIAL_SIZE [],
    alloc_count := 0, tag_count := 0 }

/-- `hash_pointer`: `((uintptr_t)ptr >> 3) % table_size`. -/
def hash_pointer (p size : Nat) : Nat := (p >>> 3) % size

/-- Model of `find_alloc_info`: NULL finds nothing; otherwise walk the
pointer's hash bucket for the first record with this address. -/
def find_alloc_info (s : AllocState) (p : Nat) : Option alloc_info :=
  if p = 0 then none
  else (s.alloc_table.getD (hash_pointer p s.alloc_table.length) []).find?
    (fun i => i.ptr == p)

/-- Model of `find_tag_entry`: walk the tag's hash bucket for the first
entry with this tag (the C code accepts a NULL tag here). -/
def find_tag_entry (s : AllocState) (t : Nat) : Option tag_entry :=
  (s.tag_table.getD (hash_pointer t s.tag_table.length) []).find?
    (fun e => e.tag == t)

/-- In-place mutation through the `tag_entry*` returned by `find_tag_entry`:
rewrite the first entry of the bucket carrying this tag. -/
def update_first_entry (f : tag_entry → tag_entry) (t : Nat) :
    List tag_entry → List tag_entry
  | [] => []
  | e :: rest => if e.tag == t then f e :: rest else e :: update_first_entry f t rest

/-- In-place mutation through the `alloc_info*` returned by
`find_alloc_info`: rewrite the first record of the bucket carrying this
pointer. -/
def update_first_info (f : alloc_info → alloc_info) (p : Nat) :
    List alloc_info → List alloc_info
  | [] => []
  | i :: rest => if i.ptr == p then f i :: rest else i :: update_first_info f p rest

/-- The bucket-chain unlink inside `unregister_allocation` (and inlined in
`prealloc`): detach the first record with this pointer, returning it and the
shortened chain. -/
def remove_first_info (p : Nat) : List alloc_info → Option alloc_info × List alloc_info
  | [] => (none, [])
  | i :: rest =>
    if i.ptr == p then (some i, rest)
    else
      let r := remove_first_info p rest
      (r.1, i :: r.2)

/-- `remove_ptr_from_tag`: find the first occurrence of the pointer, move
the array's last element into its slot, shrink the count by one (a no-op
when the pointer is absent). -/
def remove_ptr_swap (p : Nat) (l : List Nat) : List Nat :=
  match l.findIdx? (fun q => q == p) with
  | none => l
  | some i => (l.set i (l.getD (l.length - 1) 0)).dropLast

/-- The bucket unlink plus count decrement of `unregister_allocation` (also
performed inline by the relocation branch of `prealloc`). -/
def alloc_unlink_state (s : AllocState) (p : Nat) : AllocState :=
  let ai := hash_pointer p s.alloc_table.length
  let ab := (remove_first_info p (s.alloc_table.getD ai [])).2
  { s with alloc_table := s.alloc_table.set ai ab,
           alloc_count := s.alloc_count - 1 }

/-- The guarded `remove_ptr_from_tag(find_tag_entry(t), p)` step shared by
`unregister_allocation` and both branches of `prealloc`: when the tag has an
entry, swap-remove the pointer from its member array. -/
def remove_ptr_from_tag_state (s : AllocState) (p t : Nat) : AllocState :=
  match find_tag_entry s t with
  | none => s
  | some _ =>
    let ti := hash_pointer t s.tag_table.length
    let tb := update_first_entry (fun e => { e with ptrs := remove_ptr_swap p e.ptrs }) t
      (s.tag_table.getD ti [])
    { s with tag_table := s.tag_table.set ti tb }

/-- The `add_ptr_to_tag` step including entry creation: append the pointer
to the tag's entry when `exists_entry` reports one (callers pass whether
`find_tag_entry` succeeded at the moment the C code looked it up), else cons
a fresh single-member entry onto the tag's bucket and count it. -/
def tag_add_state (s : AllocState) (t p : Nat) (exists_entry : Bool) : AllocState :=
  let ti := hash_pointer t s.tag_table.length
  if exists_entry then
    let tb := update_first_entry (fun e => { e with ptrs := e.ptrs ++ [p] }) t
      (s.tag_table.getD ti [])
    { s with tag_table := s.tag_table.set ti tb }
  else
    { s with
      tag_table := s.tag_table.set ti ({ tag := t, ptrs := [p] } :: s.tag_table.getD ti []),
      tag_count := s.tag_count + 1 }

/-- Model of `register_allocation`: push the record onto its hash bucket,
bump the count, then append the pointer to the tag's entry, creating the
entry at the front of its bucket when the tag is new.  (The silent
bookkeeping-allocation-failure paths of the C code are taken to succeed.) -/
def register_allocation (s : AllocState) (p size tag : Nat) : AllocState :=
  let ai := hash_pointer p s.alloc_table.length
  let s1 := { s with
    alloc_table := s.alloc_table.set ai
      ({ ptr := p, size := size, tag := tag } :: s.alloc_table.getD ai []),
    alloc_count := s.alloc_count + 1 }
  tag_add_state s1 tag p (find_tag_entry s1 tag).isSome

/-- Model of `unregister_allocation`: NULL or an untracked pointer changes
nothing and yields NULL; otherwise unlink the record from its bucket,
decrement the count, swap-remove the pointer from its tag's entry (the
emptied entry is deliberately left in place), and hand the record back. -/
def unregister_allocation (s : AllocState) (p : Nat) : Option alloc_info × AllocState :=
  if p = 0 then (none, s)
  else
    let ai := hash_pointer p s.alloc_table.length
    match (remove_first_info p (s.alloc_table.getD ai [])).1 with
    | none => (none, s)
    | some info =>
      (some info, remove_ptr_from_tag_state (alloc_unlink_state s p) p info.tag)

/-- Model of `pmalloc` on the success path: `p` is the address `malloc`
returned (fresh and non-NULL by hypothesis where it matters); the memory
zeroing itself is outside the registry model. -/
def pmalloc (s : AllocState) (size tag p : Nat) : AllocState :=
  register_allocation s p size tag

/-- Model of `pfree`: NULL is a no-op; an unknown pointer trips the
`assert` and leaves the registry unchanged; otherwise the record is
unregistered and the memory released. -/
def pfree (s : AllocState) (p : Nat) : AllocState :=
  if p = 0 then s else (unregister_allocation s p).2

/-- The per-pointer loop of `pfree_tag` over the snapshot copy of the tag's
pointer array.  The returned list records the pointers actually passed to
`free` (the `if (info)` guard), so double-release is observable. -/
def pfree_tag_loop : AllocState → List Nat → AllocState × List Nat
  | s, [] => (s, [])
  | s, p :: rest =>
    match find_alloc_info s p with
    | none => pfree_tag_loop s rest
    | some _ =>
      let s1 := (unregister_allocation s p).2
      let r := pfree_tag_loop s1 rest
      (r.1, p :: r.2)

/-- Model of `pfree_tag`: nothing happens for an unknown or empty tag;
otherwise the member array is copied and every copied pointer still
registered is unregistered and freed. -/
def pfree_tag (s : AllocState) (t : Nat) : AllocState × List Nat :=
  match find_tag_entry s t with
  | none => (s, [])
  | some e => if e.ptrs.length = 0 then (s, []) else pfree_tag_loop s e.ptrs

/-- Model of `ptag_size`: 0 for NULL or an unknown tag, otherwise the sum of
the tracked sizes of the entry's members that still have records. -/
def ptag_size (s : AllocState) (t : Nat) : Nat :=
  if t = 0 then 0
  else
    match find_tag_entry s t with
    | none => 0
    | some e =>
      e.ptrs.foldl (fun acc p =>
        match find_alloc_info s p with
        | some info => acc + info.size
        | none => acc) 0

/-- The in-place branch of `prealloc` (`realloc` returned the same
address): when the tag changed, move the pointer from the old tag's group to
the new tag's (creating the entry if `find_tag_entry`, checked up front,
found none); then overwrite the record's size and tag in place. -/
def prealloc_inplace_state (s : AllocState) (p sz tag old_tag : Nat) : AllocState :=
  let s1 :=
    if tag ≠ old_tag then
      tag_add_state (remove_ptr_from_tag_state s p old_tag) tag p
        (find_tag_entry s tag).isSome
    else s
  let ab := update_first_info (fun i => { i with size := sz, tag := tag }) p
    (s1.alloc_table.getD (hash_pointer p s.alloc_table.length) [])
  { s1 with alloc_table :=
      s1.alloc_table.set (hash_pointer p s.alloc_table.length) ab }

/-- Model of `prealloc`: NULL falls back to `pmalloc`; an untracked pointer
trips the assert and returns NULL; otherwise `realloc` either relocates
(`new_ptr ≠ p`: unlink the old record and membership, then register the new
address under the requested tag) or resizes in place (`new_ptr = p`: move
the pointer between tag groups when the tag changed, then overwrite the
record's size and tag).  `new_ptr` is the address `realloc` returned. -/
def prealloc (s : AllocState) (p size tag new_ptr : Nat) : Option Nat × AllocState :=
  if p = 0 then (some new_ptr, pmalloc s size tag new_ptr)
  else
    match find_alloc_info s p with
    | none => (none, s)
    | some info =>
      let old_tag := info.tag
      let ai := hash_pointer p s.alloc_table.length
      if new_ptr ≠ p then
        let s1 :=
          match (remove_first_info p (s.alloc_table.getD ai [])).1 with
          | none => s
          | some _ => alloc_unlink_state s p
        let s2 := remove_ptr_from_tag_state s1 p old_tag
        (some new_ptr, register_allocation s2 new_ptr size tag)
      else
        (some new_ptr, prealloc_inplace_state s p size tag old_tag)

/-- The bucket of the allocation table at index `i`. -/
def bucketA (s : AllocState) (i : Nat) : List alloc_info := s.alloc_table.getD i []

/-- The bucket of the tag table at index `j`. -/
def bucketT (s : AllocState) (j : Nat) : List tag_entry := s.tag_table.getD j []

/-- The member pointers of a tag's group (empty when the tag is unknown). -/
def tag_members (s : AllocState) (t : Nat) : List Nat :=
  match find_tag_entry s t with
  | none => []
  | some e => e.ptrs

/-- The registry invariant maintained by the allocator API: records live in
the bucket their pointer hashes to and are non-NULL (`wf1`), pointers are
unique within a bucket (`wf2`), tag entries live in the bucket their tag
hashes to (`wf3`) with unique tags (`wf4`) and duplicate-free member lists
(`wf5`); every record's pointer is a member of its tag's group (`wf6`) and
every group member has a record carrying that tag (`wf7`). -/
@[reducible] def WF (s : AllocState) : Prop :=
  0 < s.alloc_table.length ∧ 0 < s.tag_table.length ∧
  (∀ i < s.alloc_table.length, ∀ info ∈ bucketA s i,
    info.ptr ≠ 0 ∧ hash_pointer info.ptr s.alloc_table.length = i) ∧
  (∀ i < s.alloc_table.length,
    (bucketA s i).Pairwise (fun a b => a.ptr ≠ b.ptr)) ∧
  (∀ j < s.tag_table.length, ∀ e ∈ bucketT s j,
    hash_pointer e.tag s.tag_table.length = j) ∧
  (∀ j < s.tag_table.length,
    (bucketT s j).Pairwise (fun a b => a.tag ≠ b.tag)) ∧
  (∀ j < s.tag_table.length, ∀ e ∈ bucketT s j, e.ptrs.Nodup) ∧
  (∀ i < s.alloc_table.length, ∀ info ∈ bucketA s i,
    info.ptr ∈ tag_members s info.tag) ∧
  (∀ j < s.tag_table.length, ∀ e ∈ bucketT s j, ∀ p ∈ e.ptrs,
    (find_alloc_info s p).map alloc_info.tag = some e.tag)

theorem getD_set_self {α : Type} (l : List α) (i : Nat) (b d : α) (h : i < l.length) :
    (l.set i b).getD i d = b := by
  induction l generalizing i with
  | nil => simp at h
  | cons a t ih =>
    cases i with
    | zero => simp [List.set]
    | succ n =>
      simp only [List.set, List.getD_cons_succ]
      exact ih n (by simpa using h)

theorem getD_set_ne {α : Type} (l : List α) (i j : Nat) (b d : α) (h : i ≠ j) :
    (l.set i b).getD j d = l.getD j d := by
  induction l generalizing i j with
  | nil => simp [List.set]
  | cons a t ih =>
    cases i with
    | zero =>
      cases j with
      | zero => exact absurd rfl h
      | succ m => simp [List.set]
    | succ n =>
      cases j with
      | zero => simp [List.set]
      | succ m =>
        simp only [List.set, List.getD_cons_succ]
        exact ih n m (by omega)

theorem rfi_fst (p : Nat) (l : List alloc_info) :
    (remove_first_info p l).1 = l.find? (fun i => i.ptr == p) := by
  induction l with
  | nil => rfl
  | cons a t ih =>
    cases hb : (a.ptr == p) with
    | true => simp [remove_first_info, hb, List.find?_cons_of_pos _ hb]
    | false =>
      rw [List.find?_cons_of_neg _ (by simp [hb])]
      simp [remove_first_info, hb, ih]

theorem rfi_sublist (p : Nat) (l : List alloc_info) :
    (remove_first_info p l).2.Sublist l := by
  induction l with
  | nil => simp [remove_first_info]
  | cons a t ih =>
    cases hb : (a.ptr == p) with
    | true => simp [remove_first_info, hb]
    | false =>
      simp only [remove_first_info, hb, Bool.false_eq_true, if_false]
      exact ih.cons₂ a

theorem rfi_find?_other (p q : Nat) (l : List alloc_info) (h : q ≠ p) :
    (remove_first_info p l).2.find? (fun i => i.ptr == q) =
      l.find? (fun i => i.ptr == q) := by
  induction l with
  | nil => rfl
  | cons a t ih =>
    cases hb : (a.ptr == p) with
    | true =>
      have hq : (a.ptr == q) = false := by
        have hap : a.ptr = p := by simpa using hb
        simp [hap, Ne.symm h]
      simp only [remove_first_info, hb, if_true]
      simp [List.find?_cons, hq]
    | false =>
      simp only [remove_first_info, hb, Bool.false_eq_true, if_false]
      simp only [List.find?_cons]
      cases hq : (a.ptr == q) with
      | true => rfl
      | false => exact ih

theorem rfi_find?_self (p : Nat) (l : List alloc_info)
    (h : l.Pairwise (fun a b => a.ptr ≠ b.ptr)) :
    (remove_first_info p l).2.find? (fun i => i.ptr == p) = none := by
  induction l with
  | nil => rfl
  | cons a t ih =>
    rw [List.pairwise_cons] at h
    cases hb : (a.ptr == p) with
    | true =>
      have hap : a.ptr = p := by simpa using hb
      simp only [remove_first_info, hb, if_true]
      rw [List.find?_eq_none]
      intro x hx
      have hne := h.1 x hx
      rw [hap] at hne
      simp [Ne.symm hne]
    | false =>
      simp only [remove_first_info, hb, Bool.false_eq_true, if_false]
      simp only [List.find?_cons, hb]
      exact ih h.2

theorem rfi_mem_of_ne (p : Nat) (l : List alloc_info) (x : alloc_info)
    (hx : x ∈ l) (h : x.ptr ≠ p) : x ∈ (remove_first_info p l).2 := by
  induction l with
  | nil => simp at hx
  | cons a t ih =>
    cases hb : (a.ptr == p) with
    | true =>
      have hap : a.ptr = p := by simpa using hb
      simp only [remove_first_info, hb, if_true]
      rcases List.mem_cons.mp hx with rfl | hm
      · exact absurd hap h
      · exact hm
    | false =>
      simp only [remove_first_info, hb, Bool.false_eq_true, if_false]
      rcases List.mem_cons.mp hx with rfl | hm
      · exact List.mem_cons_self _ _
      · exact List.mem_cons_of_mem _ (ih hm)

theorem rps_perm_erase (p : Nat) (l : List Nat) :
    (remove_ptr_swap p l).Perm (l.erase p) := by
  induction l with
  | nil => simp [remove_ptr_swap]
  | cons a t ih =>
    unfold remove_ptr_swap
    rw [List.findIdx?_cons]
    by_cases ha : a = p
    · subst ha
      rw [if_pos (by simp)]
      cases t with
      | nil => simp
      | cons b t2 =>
        rw [List.erase_cons_head]
        have hlen : (a :: b :: t2).length - 1 = (b :: t2).length - 1 + 1 := by
          simp
        rw [hlen, List.getD_cons_succ]
        have hgl : (b :: t2).getD ((b :: t2).length - 1) 0 = (b :: t2).getLast (by simp) := by
          rw [List.getLast_eq_getElem]
          simp [List.getD, List.getElem?_eq_getElem]
        rw [hgl]
        have hdl : ((b :: t2).getLast (by simp) :: b :: t2).dropLast =
            (b :: t2).getLast (by simp) :: (b :: t2).dropLast := by
          rw [List.dropLast_cons₂]
        simp only [List.set]
        rw [hdl]
        have hsplit := List.dropLast_append_getLast (l := b :: t2) (by simp)
        calc ((b :: t2).getLast (by simp) :: (b :: t2).dropLast).Perm
              ((b :: t2).dropLast ++ [(b :: t2).getLast (by simp)]) :=
              (List.perm_append_singleton _ _).symm
          _ = b :: t2 := hsplit
    · rw [if_neg (by simp [ha])]
      rw [List.findIdx?_succ]
      cases hf : List.findIdx? (fun q => q == p) t with
      | none =>
        simp only [Option.map_none']
        have hnm : p ∉ t := by
          intro hm
          have := (List.findIdx?_eq_none_iff.mp hf) p hm
          simp at this
        rw [List.erase_cons_tail (by simp [ha]), List.erase_of_not_mem hnm]
      | some i =>
        simp only [Option.map_some']
        have hi : i < t.length := by
          obtain ⟨h1, -, -⟩ := List.findIdx?_eq_some_iff_getElem.mp hf
          exact h1
        have ht : t ≠ [] := by
          intro he
          rw [he] at hi
          simp at hi
        have hlen : (a :: t).length - 1 = (t.length - 1) + 1 := by
          simp only [List.length_cons]
          omega
        rw [hlen, List.getD_cons_succ, List.set_cons_succ]
        have hne : t.set i (t.getD (t.length - 1) 0) ≠ [] := by
          apply List.ne_nil_of_length_pos
          rw [List.length_set]
          omega
        cases hset : t.set i (t.getD (t.length - 1) 0) with
        | nil => exact absurd hset hne
        | cons c u =>
          rw [List.dropLast_cons₂]
          rw [List.erase_cons_tail (by simp [ha])]
          have hrps : remove_ptr_swap p t = (c :: u).dropLast := by
            unfold remove_ptr_swap
            rw [hf]
            show (t.set i (t.getD (t.length - 1) 0)).dropLast = _
            rw [hset]
          rw [← hrps]
          exact (ih.cons a)

theorem rps_subset (p : Nat) (l : List Nat) : remove_ptr_swap p l ⊆ l :=
  fun _ hx => (List.erase_sublist p l).subset ((rps_perm_erase p l).subset hx)

theorem rps_nodup (p : Nat) (l : List Nat) (h : l.Nodup) :
    (remove_ptr_swap p l).Nodup :=
  ((rps_perm_erase p l).nodup_iff).mpr (h.erase p)

theorem rps_not_mem (p : Nat) (l : List Nat) (h : l.Nodup) :
    p ∉ remove_ptr_swap p l := by
  intro hm
  have := (rps_perm_erase p l).subset hm
  rw [h.mem_erase_iff] at this
  exact this.1 rfl

theorem rps_mem_of_ne (p q : Nat) (l : List Nat) (h : q ≠ p) :
    q ∈ remove_ptr_swap p l ↔ q ∈ l := by
  rw [(rps_perm_erase p l).mem_iff, List.mem_erase_of_ne h]

theorem ufe_find?_self (f : tag_entry → tag_entry) (t : Nat) (b : List tag_entry)
    (hf : ∀ e, (f e).tag = e.tag) :
    (update_first_entry f t b).find? (fun e => e.tag == t) =
      (b.find? (fun e => e.tag == t)).map f := by
  induction b with
  | nil => rfl
  | cons e rest ih =>
    cases hb : (e.tag == t) with
    | true =>
      simp only [update_first_entry, hb, if_true]
      have h1 : List.find? (fun e => e.tag == t) (f e :: rest) = some (f e) :=
        List.find?_cons_of_pos _ (by simp [hf, (by simpa using hb : e.tag = t)])
      have h2 : List.find? (fun e => e.tag == t) (e :: rest) = some e :=
        List.find?_cons_of_pos _ hb
      rw [h1, h2]
      rfl
    | false =>
      simp only [update_first_entry, hb, Bool.false_eq_true, if_false]
      rw [List.find?_cons_of_neg _ (by simp [hb]), List.find?_cons_of_neg _ (by simp [hb])]
      exact ih

theorem ufe_find?_other (f : tag_entry → tag_entry) (t u : Nat) (b : List tag_entry)
    (hf : ∀ e, (f e).tag = e.tag) (hu : u ≠ t) :
    (update_first_entry f t b).find? (fun e => e.tag == u) =
      b.find? (fun e => e.tag == u) := by
  induction b with
  | nil => rfl
  | cons e rest ih =>
    cases hb : (e.tag == t) with
    | true =>
      have het : e.tag = t := by simpa using hb
      simp only [update_first_entry, hb, if_true]
      rw [List.find?_cons_of_neg _ (by simp [hf, het, Ne.symm hu]),
        List.find?_cons_of_neg _ (by simp [het, Ne.symm hu])]
    | false =>
      simp only [update_first_entry, hb, Bool.false_eq_true, if_false]
      cases hq : (e.tag == u) with
      | true =>
        have h1 : List.find? (fun e => e.tag == u) (e :: update_first_entry f t rest) = some e :=
          List.find?_cons_of_pos _ hq
        have h2 : List.find? (fun e => e.tag == u) (e :: rest) = some e :=
          List.find?_cons_of_pos _ hq
        rw [h1, h2]
      | false =>
        rw [List.find?_cons_of_neg _ (by simp [hq]), List.find?_cons_of_neg _ (by simp [hq])]
        exact ih

theorem ufe_mem (f : tag_entry → tag_entry) (t : Nat) (b : List tag_entry)
    (x : tag_entry) (hx : x ∈ update_first_entry f t b) :
    x ∈ b ∨ ∃ e ∈ b, e.tag = t ∧ x = f e := by
  induction b with
  | nil => simp [update_first_entry] at hx
  | cons e rest ih =>
    cases hb : (e.tag == t) with
    | true =>
      rw [update_first_entry, if_pos hb] at hx
      rcases List.mem_cons.mp hx with rfl | hm
      · exact Or.inr ⟨e, List.mem_cons_self _ _, by simpa using hb, rfl⟩
      · exact Or.inl (List.mem_cons_of_mem _ hm)
    | false =>
      rw [update_first_entry, if_neg (by simp [hb])] at hx
      rcases List.mem_cons.mp hx with rfl | hm
      · exact Or.inl (List.mem_cons_self _ _)
      · rcases ih hm with h | ⟨e2, he2, ht2, hx2⟩
        · exact Or.inl (List.mem_cons_of_mem _ h)
        · exact Or.inr ⟨e2, List.mem_cons_of_mem _ he2, ht2, hx2⟩

theorem ufe_map_tag (f : tag_entry → tag_entry) (t : Nat) (b : List tag_entry)
    (hf : ∀ e, (f e).tag = e.tag) :
    (update_first_entry f t b).map tag_entry.tag = b.map tag_entry.tag := by
  induction b with
  | nil => rfl
  | cons e rest ih =>
    cases hb : (e.tag == t) with
    | true => simp [update_first_entry, hb, hf]
    | false => simp [update_first_entry, hb, ih]

theorem ufi_find?_self (f : alloc_info → alloc_info) (p : Nat) (b : List alloc_info)
    (hf : ∀ i, (f i).ptr = i.ptr) :
    (update_first_info f p b).find? (fun i => i.ptr == p) =
      (b.find? (fun i => i.ptr == p)).map f := by
  induction b with
  | nil => rfl
  | cons i rest ih =>
    cases hb : (i.ptr == p) with
    | true =>
      simp only [update_first_info, hb, if_true]
      have h1 : List.find? (fun i => i.ptr == p) (f i :: rest) = some (f i) :=
        List.find?_cons_of_pos _ (by simp [hf, (by simpa using hb : i.ptr = p)])
      have h2 : List.find? (fun i => i.ptr == p) (i :: rest) = some i :=
        List.find?_cons_of_pos _ hb
      rw [h1, h2]
      rfl
    | false =>
      simp only [update_first_info, hb, Bool.false_eq_true, if_false]
      rw [List.find?_cons_of_neg _ (by simp [hb]), List.find?_cons_of_neg _ (by simp [hb])]
      exact ih

theorem ufi_find?_other (f : alloc_info → alloc_info) (p q : Nat) (b : List alloc_info)
    (hf : ∀ i, (f i).ptr = i.ptr) (hq : q ≠ p) :
    (update_first_info f p b).find? (fun i => i.ptr == q) =
      b.find? (fun i => i.ptr == q) := by
  induction b with
  | nil => rfl
  | cons i rest ih =>
    cases hb : (i.ptr == p) with
    | true =>
      have hip : i.ptr = p := by simpa using hb
      simp only [update_first_info, hb, if_true]
      rw [List.find?_cons_of_neg _ (by simp [hf, hip, Ne.symm hq]),
        List.find?_cons_of_neg _ (by simp [hip, Ne.symm hq])]
    | false =>
      simp only [update_first_info, hb, Bool.false_eq_true, if_false]
      cases hc : (i.ptr == q) with
      | true =>
        have h1 : List.find? (fun i => i.ptr == q) (i :: update_first_info f p rest) = some i :=
          List.find?_cons_of_pos _ hc
        have h2 : List.find? (fun i => i.ptr == q) (i :: rest) = some i :=
          List.find?_cons_of_pos _ hc
        rw [h1, h2]
      | false =>
        rw [List.find?_cons_of_neg _ (by simp [hc]), List.find?_cons_of_neg _ (by simp [hc])]
        exact ih

theorem ufi_mem (f : alloc_info → alloc_info) (p : Nat) (b : List alloc_info)
    (x : alloc_info) (hx : x ∈ update_first_info f p b) :
    x ∈ b ∨ ∃ i ∈ b, i.ptr = p ∧ x = f i := by
  induction b with
  | nil => simp [update_first_info] at hx
  | cons i rest ih =>
    cases hb : (i.ptr == p) with
    | true =>
      rw [update_first_info, if_pos hb] at hx
      rcases List.mem_cons.mp hx with rfl | hm
      · exact Or.inr ⟨i, List.mem_cons_self _ _, by simpa using hb, rfl⟩
      · exact Or.inl (List.mem_cons_of_mem _ hm)
    | false =>
      rw [update_first_info, if_neg (by simp [hb])] at hx
      rcases List.mem_cons.mp hx with rfl | hm
      · exact Or.inl (List.mem_cons_self _ _)
      · rcases ih hm with h | ⟨i2, hi2, hp2, hx2⟩
        · exact Or.inl (List.mem_cons_of_mem _ h)
        · exact Or.inr ⟨i2, List.mem_cons_of_mem _ hi2, hp2, hx2⟩

theorem ufi_map_ptr (f : alloc_info → alloc_info) (p : Nat) (b : List alloc_info)
    (hf : ∀ i, (f i).ptr = i.ptr) :
    (update_first_info f p b).map alloc_info.ptr = b.map alloc_info.ptr := by
  induction b with
  | nil => rfl
  | cons i rest ih =>
    cases hb : (i.ptr == p) with
    | true => simp [update_first_info, hb, hf]
    | false => simp [update_first_info, hb, ih]

theorem hash_lt (p n : Nat) (h : 0 < n) : hash_pointer p n < n := Nat.mod_lt _ h

theorem find_alloc_info_some (s : AllocState) (p : Nat) (info : alloc_info)
    (h : find_alloc_info s p = some info) :
    p ≠ 0 ∧ info.ptr = p ∧
      info ∈ s.alloc_table.getD (hash_pointer p s.alloc_table.length) [] := by
  unfold find_alloc_info at h
  by_cases hp : p = 0
  · simp [hp] at h
  · rw [if_neg hp] at h
    exact ⟨hp, by simpa using List.find?_some h, List.mem_of_find?_eq_some h⟩

theorem find_tag_entry_some (s : AllocState) (t : Nat) (e : tag_entry)
    (h : find_tag_entry s t = some e) :
    e.tag = t ∧ e ∈ s.tag_table.getD (hash_pointer t s.tag_table.length) [] := by
  unfold find_tag_entry at h
  exact ⟨by simpa using List.find?_some h, List.mem_of_find?_eq_some h⟩

theorem find_alloc_info_rpfts (s : AllocState) (p t q : Nat) :
    find_alloc_info (remove_ptr_from_tag_state s p t) q = find_alloc_info s q := by
  unfold remove_ptr_from_tag_state
  cases find_tag_entry s t <;> rfl

theorem find_alloc_info_tas (s : AllocState) (t p q : Nat) (ex : Bool) :
    find_alloc_info (tag_add_state s t p ex) q = find_alloc_info s q := by
  unfold tag_add_state
  cases ex <;> rfl

theorem find_tag_entry_aus (s : AllocState) (p t : Nat) :
    find_tag_entry (alloc_unlink_state s p) t = find_tag_entry s t := rfl

theorem tag_members_aus (s : AllocState) (p t : Nat) :
    tag_members (alloc_unlink_state s p) t = tag_members s t := rfl

theorem aus_table_length (s : AllocState) (p : Nat) :
    (alloc_unlink_state s p).alloc_table.length = s.alloc_table.length := by
  simp [alloc_unlink_state]

theorem find_alloc_info_aus_other (s : AllocState) (p q : Nat)
    (hlen : 0 < s.alloc_table.length) (hq : q ≠ p) :
    find_alloc_info (alloc_unlink_state s p) q = find_alloc_info s q := by
  by_cases hq0 : q = 0
  · simp [find_alloc_info, hq0]
  · unfold find_alloc_info alloc_unlink_state
    rw [if_neg hq0, if_neg hq0]
    simp only [List.length_set]
    by_cases hh : hash_pointer q s.alloc_table.length = hash_pointer p s.alloc_table.length
    · rw [hh, getD_set_self _ _ _ _ (hash_lt _ _ hlen)]
      exact rfi_find?_other p q _ hq
    · rw [getD_set_ne _ _ _ _ _ (fun heq => hh heq.symm)]

theorem find_alloc_info_aus_self (s : AllocState) (p : Nat)
    (hlen : 0 < s.alloc_table.length)
    (hpw : (s.alloc_table.getD (hash_pointer p s.alloc_table.length) []).Pairwise
      (fun a b => a.ptr ≠ b.ptr)) :
    find_alloc_info (alloc_unlink_state s p) p = none := by
  by_cases hp0 : p = 0
  · simp [find_alloc_info, hp0]
  · unfold find_alloc_info alloc_unlink_state
    rw [if_neg hp0]
    simp only [List.length_set]
    rw [getD_set_self _ _ _ _ (hash_lt _ _ hlen)]
    exact rfi_find?_self p _ hpw

theorem rpfts_tag_length (s : AllocState) (p t : Nat) :
    (remove_ptr_from_tag_state s p t).tag_table.length = s.tag_table.length := by
  unfold remove_ptr_from_tag_state
  cases find_tag_entry s t <;> simp

theorem rpfts_alloc_table (s : AllocState) (p t : Nat) :
    (remove_ptr_from_tag_state s p t).alloc_table = s.alloc_table := by
  unfold remove_ptr_from_tag_state
  cases find_tag_entry s t <;> rfl

theorem find_tag_entry_rpfts_self (s : AllocState) (p t : Nat)
    (hlen : 0 < s.tag_table.length) :
    find_tag_entry (remove_ptr_from_tag_state s p t) t =
      (find_tag_entry s t).map (fun e => { e with ptrs := remove_ptr_swap p e.ptrs }) := by
  unfold remove_ptr_from_tag_state
  cases hf : find_tag_entry s t with
  | none => simp [hf]
  | some e =>
    simp only []
    unfold find_tag_entry
    simp only [List.length_set]
    rw [getD_set_self _ _ _ _ (hash_lt _ _ hlen)]
    rw [ufe_find?_self (fun e => { e with ptrs := remove_ptr_swap p e.ptrs }) t _
      (fun e2 => rfl)]
    unfold find_tag_entry at hf
    rw [hf]

theorem find_tag_entry_rpfts_other (s : AllocState) (p t u : Nat)
    (hlen : 0 < s.tag_table.length) (hu : u ≠ t) :
    find_tag_entry (remove_ptr_from_tag_state s p t) u = find_tag_entry s u := by
  unfold remove_ptr_from_tag_state
  cases hf : find_tag_entry s t with
  | none => rfl
  | some e =>
    simp only []
    unfold find_tag_entry
    simp only [List.length_set]
    by_cases hh : hash_pointer u s.tag_table.length = hash_pointer t s.tag_table.length
    · rw [hh, getD_set_self _ _ _ _ (hash_lt _ _ hlen)]
      exact ufe_find?_other (fun e => { e with ptrs := remove_ptr_swap p e.ptrs }) t u _
        (fun e2 => rfl) hu
    · rw [getD_set_ne _ _ _ _ _ (fun heq => hh heq.symm)]

theorem tag_members_rpfts_self (s : AllocState) (p t : Nat)
    (hlen : 0 < s.tag_table.length) :
    tag_members (remove_ptr_from_tag_state s p t) t = remove_ptr_swap p (tag_members s t) := by
  unfold tag_members
  rw [find_tag_entry_rpfts_self s p t hlen]
  cases find_tag_entry s t with
  | none => simp [remove_ptr_swap]
  | some e => rfl

theorem tag_members_rpfts_other (s : AllocState) (p t u : Nat)
    (hlen : 0 < s.tag_table.length) (hu : u ≠ t) :
    tag_members (remove_ptr_from_tag_state s p t) u = tag_members s u := by
  unfold tag_members
  rw [find_tag_entry_rpfts_other s p t u hlen hu]

theorem tas_tag_length (s : AllocState) (t p : Nat) (ex : Bool) :
    (tag_add_state s t p ex).tag_table.length = s.tag_table.length := by
  unfold tag_add_state
  cases ex <;> simp

theorem tas_alloc_table (s : AllocState) (t p : Nat) (ex : Bool) :
    (tag_add_state s t p ex).alloc_table = s.alloc_table := by
  unfold tag_add_state
  cases ex <;> rfl

theorem find_tag_entry_tas_self (s : AllocState) (t p : Nat)
    (hlen : 0 < s.tag_table.length) :
    find_tag_entry (tag_add_state s t p (find_tag_entry s t).isSome) t =
      some (match find_tag_entry s t with
            | some e => { e with ptrs := e.ptrs ++ [p] }
            | none => { tag := t, ptrs := [p] }) := by
  cases hf : find_tag_entry s t with
  | none =>
    unfold tag_add_state
    simp only [Option.isSome_none, Bool.false_eq_true, if_false]
    unfold find_tag_entry
    simp only [List.length_set]
    rw [getD_set_self _ _ _ _ (hash_lt _ _ hlen)]
    rw [List.find?_cons_of_pos _ (by simp)]
  | some e =>
    unfold tag_add_state
    simp only [Option.isSome_some, if_true]
    unfold find_tag_entry
    simp only [List.length_set]
    rw [getD_set_self _ _ _ _ (hash_lt _ _ hlen)]
    rw [ufe_find?_self (fun e => { e with ptrs := e.ptrs ++ [p] }) t _ (fun e2 => rfl)]
    unfold find_tag_entry at hf
    rw [hf]
    rfl

theorem find_tag_entry_tas_other (s : AllocState) (t p u : Nat) (ex : Bool)
    (hlen : 0 < s.tag_table.length) (hu : u ≠ t) :
    find_tag_entry (tag_add_state s t p ex) u = find_tag_entry s u := by
  unfold tag_add_state
  cases ex with
  | true =>
    simp only [if_true]
    unfold find_tag_entry
    simp only [List.length_set]
    by_cases hh : hash_pointer u s.tag_table.length = hash_pointer t s.tag_table.length
    · rw [hh, getD_set_self _ _ _ _ (hash_lt _ _ hlen)]
      exact ufe_find?_other (fun e => { e with ptrs := e.ptrs ++ [p] }) t u _
        (fun e2 => rfl) hu
    · rw [getD_set_ne _ _ _ _ _ (fun heq => hh heq.symm)]
  | false =>
    simp only [Bool.false_eq_true, if_false]
    unfold find_tag_entry
    simp only [List.length_set]
    by_cases hh : hash_pointer u s.tag_table.length = hash_pointer t s.tag_table.length
    · rw [hh, getD_set_self _ _ _ _ (hash_lt _ _ hlen)]
      rw [List.find?_cons_of_neg _ (by simp [Ne.symm hu])]
    · rw [getD_set_ne _ _ _ _ _ (fun heq => hh heq.symm)]

theorem tag_members_tas_self (s : AllocState) (t p : Nat)
    (hlen : 0 < s.tag_table.length) :
    tag_members (tag_add_state s t p (find_tag_entry s t).isSome) t =
      tag_members s t ++ [p] := by
  unfold tag_members
  rw [find_tag_entry_tas_self s t p hlen]
  cases find_tag_entry s t with
  | none => rfl
  | some e => rfl

theorem tag_members_tas_other (s : AllocState) (t p u : Nat) (ex : Bool)
    (hlen : 0 < s.tag_table.length) (hu : u ≠ t) :
    tag_members (tag_add_state s t p ex) u = tag_members s u := by
  unfold tag_members
  rw [find_tag_entry_tas_other s t p u ex hlen hu]

theorem unregister_eq (s : AllocState) (p : Nat) (info : alloc_info)
    (hfind : find_alloc_info s p = some info) :
    unregister_allocation s p =
      (some info, remove_ptr_from_tag_state (alloc_unlink_state s p) p info.tag) := by
  obtain ⟨hp, hptr, hmem⟩ := find_alloc_info_some s p info hfind
  unfold unregister_allocation
  rw [if_neg hp]
  have h1 : (remove_first_info p
      (s.alloc_table.getD (hash_pointer p s.alloc_table.length) [])).1 = some info := by
    rw [rfi_fst]
    unfold find_alloc_info at hfind
    rw [if_neg hp] at hfind
    exact hfind
  simp only []
  rw [h1]

theorem unregister_none (s : AllocState) (p : Nat)
    (hfind : find_alloc_info s p = none) :
    unregister_allocation s p = (none, s) := by
  unfold unregister_allocation
  by_cases hp : p = 0
  · rw [if_pos hp]
  · rw [if_neg hp]
    have h1 : (remove_first_info p
        (s.alloc_table.getD (hash_pointer p s.alloc_table.length) [])).1 = none := by
      rw [rfi_fst]
      unfold find_alloc_info at hfind
      rw [if_neg hp] at hfind
      exact hfind
    simp only []
    rw [h1]

theorem find_alloc_info_register_self (s : AllocState) (p sz t : Nat)
    (hp : p ≠ 0) (hlen : 0 < s.alloc_table.length) :
    find_alloc_info (register_allocation s p sz t) p =
      some { ptr := p, size := sz, tag := t } := by
  unfold register_allocation
  simp only []
  rw [find_alloc_info_tas]
  unfold find_alloc_info
  rw [if_neg hp]
  simp only [List.length_set]
  rw [getD_set_self _ _ _ _ (hash_lt _ _ hlen)]
  rw [List.find?_cons_of_pos _ (by simp)]

theorem find_alloc_info_register_other (s : AllocState) (p sz t q : Nat)
    (hq : q ≠ p) (hlen : 0 < s.alloc_table.length) :
    find_alloc_info (register_allocation s p sz t) q = find_alloc_info s q := by
  unfold register_allocation
  simp only []
  rw [find_alloc_info_tas]
  by_cases hq0 : q = 0
  · simp [find_alloc_info, hq0]
  · unfold find_alloc_info
    rw [if_neg hq0, if_neg hq0]
    simp only [List.length_set]
    by_cases hh : hash_pointer q s.alloc_table.length = hash_pointer p s.alloc_table.length
    · rw [hh, getD_set_self _ _ _ _ (hash_lt _ _ hlen)]
      rw [List.find?_cons_of_neg _ (by simp [Ne.symm hq])]
    · rw [getD_set_ne _ _ _ _ _ (fun heq => hh heq.symm)]

theorem find_tag_entry_register (s : AllocState) (p sz t u : Nat) :
    find_tag_entry { s with
        alloc_table := s.alloc_table.set (hash_pointer p s.alloc_table.length)
          ({ ptr := p, size := sz, tag := t } :: s.alloc_table.getD
            (hash_pointer p s.alloc_table.length) []),
        alloc_count := s.alloc_count + 1 } u = find_tag_entry s u := rfl

theorem tag_members_register_self (s : AllocState) (p sz t : Nat)
    (hlen : 0 < s.tag_table.length) :
    tag_members (register_allocation s p sz t) t = tag_members s t ++ [p] := by
  unfold register_allocation
  simp only []
  exact tag_members_tas_self _ t p hlen

theorem tag_members_register_other (s : AllocState) (p sz t u : Nat)
    (hlen : 0 < s.tag_table.length) (hu : u ≠ t) :
    tag_members (register_allocation s p sz t) u = tag_members s u := by
  unfold register_allocation
  simp only []
  exact tag_members_tas_other _ t p u _ hlen hu

theorem ufe_mem_pairwise (f : tag_entry → tag_entry) (t : Nat) (b : List tag_entry)
    (hpw : b.Pairwise (fun a c => a.tag ≠ c.tag)) (x : tag_entry)
    (hx : x ∈ update_first_entry f t b) :
    (x ∈ b ∧ x.tag ≠ t) ∨ ∃ e ∈ b, e.tag = t ∧ x = f e := by
  induction b with
  | nil => simp [update_first_entry] at hx
  | cons e rest ih =>
    rw [List.pairwise_cons] at hpw
    cases hb : (e.tag == t) with
    | true =>
      have het : e.tag = t := by simpa using hb
      rw [update_first_entry, if_pos hb] at hx
      rcases List.mem_cons.mp hx with rfl | hm
      · exact Or.inr ⟨e, List.mem_cons_self _ _, het, rfl⟩
      · refine Or.inl ⟨List.mem_cons_of_mem _ hm, ?_⟩
        have hne := hpw.1 x hm
        rw [het] at hne
        exact Ne.symm hne
    | false =>
      have het : e.tag ≠ t := by simpa using hb
      rw [update_first_entry, if_neg (by simp [hb])] at hx
      rcases List.mem_cons.mp hx with rfl | hm
      · exact Or.inl ⟨List.mem_cons_self _ _, het⟩
      · rcases ih hpw.2 hm with ⟨h1, h2⟩ | ⟨e2, he2, ht2, hx2⟩
        · exact Or.inl ⟨List.mem_cons_of_mem _ h1, h2⟩
        · exact Or.inr ⟨e2, List.mem_cons_of_mem _ he2, ht2, hx2⟩

theorem unregister_find (s : AllocState) (p q : Nat) (info : alloc_info)
    (hAL : 0 < s.alloc_table.length)
    (hpw : (s.alloc_table.getD (hash_pointer p s.alloc_table.length) []).Pairwise
      (fun a b => a.ptr ≠ b.ptr)) :
    find_alloc_info (remove_ptr_from_tag_state (alloc_unlink_state s p) p info.tag) q =
      if q = p then none else find_alloc_info s q := by
  rw [find_alloc_info_rpfts]
  by_cases hq : q = p
  · subst hq
    rw [if_pos rfl]
    exact find_alloc_info_aus_self s q hAL hpw
  · rw [if_neg hq]
    exact find_alloc_info_aus_other s p q hAL hq

theorem unregister_members (s : AllocState) (p u : Nat) (info : alloc_info)
    (hTL : 0 < s.tag_table.length) :
    tag_members (remove_ptr_from_tag_state (alloc_unlink_state s p) p info.tag) u =
      if u = info.tag then remove_ptr_swap p (tag_members s u) else tag_members s u := by
  by_cases hu : u = info.tag
  · rw [if_pos hu, hu]
    rw [tag_members_rpfts_self (alloc_unlink_state s p) p info.tag hTL]
    rw [tag_members_aus]
  · rw [if_neg hu]
    rw [tag_members_rpfts_other (alloc_unlink_state s p) p info.tag u hTL hu]
    rw [tag_members_aus]

theorem WF_unregister (s : AllocState) (p : Nat) (info : alloc_info)
    (hWF : WF s) (hfind : find_alloc_info s p = some info) :
    WF (remove_ptr_from_tag_state (alloc_unlink_state s p) p info.tag) := by
  obtain ⟨hAL, hTL, h1, h2, h3, h4, h5, h6, h7⟩ := hWF
  obtain ⟨hp, hptr, hmem⟩ := find_alloc_info_some s p info hfind
  have hain : hash_pointer p s.alloc_table.length < s.alloc_table.length :=
    hash_lt _ _ hAL
  have htin : hash_pointer info.tag s.tag_table.length < s.tag_table.length :=
    hash_lt _ _ hTL
  have hment : info.ptr ∈ tag_members s info.tag := h6 _ hain info hmem
  have hfe : ∃ e, find_tag_entry s info.tag = some e := by
    cases hh : find_tag_entry s info.tag with
    | none =>
      unfold tag_members at hment
      rw [hh] at hment
      simp at hment
    | some e => exact ⟨e, rfl⟩
  obtain ⟨e, hfe⟩ := hfe
  have hs2a : (remove_ptr_from_tag_state (alloc_unlink_state s p) p info.tag).alloc_table =
      s.alloc_table.set (hash_pointer p s.alloc_table.length)
        (remove_first_info p (bucketA s (hash_pointer p s.alloc_table.length))).2 := by
    rw [rpfts_alloc_table]
    rfl
  have hs2t : (remove_ptr_from_tag_state (alloc_unlink_state s p) p info.tag).tag_table =
      s.tag_table.set (hash_pointer info.tag s.tag_table.length)
        (update_first_entry (fun e => { e with ptrs := remove_ptr_swap p e.ptrs }) info.tag
          (bucketT s (hash_pointer info.tag s.tag_table.length))) := by
    unfold remove_ptr_from_tag_state
    rw [show find_tag_entry (alloc_unlink_state s p) info.tag = some e from hfe]
    rfl
  have hlen_a : (remove_ptr_from_tag_state (alloc_unlink_state s p) p info.tag).alloc_table.length =
      s.alloc_table.length := by
    rw [hs2a]
    simp
  have hlen_t : (remove_ptr_from_tag_state (alloc_unlink_state s p) p info.tag).tag_table.length =
      s.tag_table.length := by
    rw [hs2t]
    simp
  have hbA : ∀ i, bucketA (remove_ptr_from_tag_state (alloc_unlink_state s p) p info.tag) i =
      if i = hash_pointer p s.alloc_table.length
      then (remove_first_info p (bucketA s (hash_pointer p s.alloc_table.length))).2
      else bucketA s i := by
    intro i
    unfold bucketA
    rw [hs2a]
    by_cases hi : i = hash_pointer p s.alloc_table.length
    · rw [if_pos hi, hi, getD_set_self _ _ _ _ hain]
      rfl
    · rw [if_neg hi, getD_set_ne _ _ _ _ _ (fun hh => hi hh.symm)]
  have hbT : ∀ j, bucketT (remove_ptr_from_tag_state (alloc_unlink_state s p) p info.tag) j =
      if j = hash_pointer info.tag s.tag_table.length
      then update_first_entry (fun e => { e with ptrs := remove_ptr_swap p e.ptrs }) info.tag
        (bucketT s (hash_pointer info.tag s.tag_table.length))
      else bucketT s j := by
    intro j
    unfold bucketT
    rw [hs2t]
    by_cases hj : j = hash_pointer info.tag s.tag_table.length
    · rw [if_pos hj, hj, getD_set_self _ _ _ _ htin]
      rfl
    · rw [if_neg hj, getD_set_ne _ _ _ _ _ (fun hh => hj hh.symm)]
  refine ⟨?_, ?_, ?_, ?_, ?_, ?_, ?_, ?_, ?_⟩
  · rw [hlen_a]
    exact hAL
  · rw [hlen_t]
    exact hTL
  · -- records stay non-NULL and in their hash bucket
    intro i hi r hr
    rw [hlen_a] at hi ⊢
    rw [hbA i] at hr
    by_cases hi2 : i = hash_pointer p s.alloc_table.length
    · rw [if_pos hi2] at hr
      have hr2 : r ∈ bucketA s i := hi2 ▸ (rfi_sublist p _).subset hr
      exact h1 i hi r hr2
    · rw [if_neg hi2] at hr
      exact h1 i hi r hr
  · -- pointer uniqueness per bucket
    intro i hi
    rw [hlen_a] at hi
    rw [hbA i]
    by_cases hi2 : i = hash_pointer p s.alloc_table.length
    · rw [if_pos hi2]
      exact List.Pairwise.sublist (rfi_sublist p _) (h2 _ hain)
    · rw [if_neg hi2]
      exact h2 i hi
  · -- tag entries stay in their hash bucket
    intro j hj e2 he2
    rw [hlen_t] at hj ⊢
    rw [hbT j] at he2
    by_cases hj2 : j = hash_pointer info.tag s.tag_table.length
    · rw [if_pos hj2] at he2
      rcases ufe_mem (fun e => { e with ptrs := remove_ptr_swap p e.ptrs }) info.tag _ e2 he2
        with hin | ⟨e0, he0, ht0, rfl⟩
      · exact hj2 ▸ h3 _ htin e2 hin
      · exact hj2 ▸ h3 _ htin e0 he0
    · rw [if_neg hj2] at he2
      exact h3 j hj e2 he2
  · -- tag uniqueness per bucket
    intro j hj
    rw [hlen_t] at hj
    rw [hbT j]
    by_cases hj2 : j = hash_pointer info.tag s.tag_table.length
    · rw [if_pos hj2]
      have hmt := ufe_map_tag (fun e => { e with ptrs := remove_ptr_swap p e.ptrs }) info.tag
        (bucketT s (hash_pointer info.tag s.tag_table.length)) (fun e2 => rfl)
      have h9 : ((update_first_entry (fun e => { e with ptrs := remove_ptr_swap p e.ptrs })
          info.tag (bucketT s (hash_pointer info.tag s.tag_table.length))).map
            tag_entry.tag).Pairwise (fun a b => a ≠ b) := by
        rw [hmt]
        exact List.pairwise_map.mpr (h4 _ htin)
      exact List.pairwise_map.mp h9
    · rw [if_neg hj2]
      exact h4 j hj
  · -- member lists stay duplicate-free
    intro j hj e2 he2
    rw [hlen_t] at hj
    rw [hbT j] at he2
    by_cases hj2 : j = hash_pointer info.tag s.tag_table.length
    · rw [if_pos hj2] at he2
      rcases ufe_mem (fun e => { e with ptrs := remove_ptr_swap p e.ptrs }) info.tag _ e2 he2
        with hin | ⟨e0, he0, ht0, rfl⟩
      · exact h5 _ htin e2 hin
      · exact rps_nodup p e0.ptrs (h5 _ htin e0 he0)
    · rw [if_neg hj2] at he2
      exact h5 j hj e2 he2
  · -- every surviving record is still a group member
    intro i hi r hr
    rw [hlen_a] at hi
    rw [hbA i] at hr
    have hrp : r ∈ bucketA s i ∧ r.ptr ≠ p := by
      by_cases hi2 : i = hash_pointer p s.alloc_table.length
      · rw [if_pos hi2] at hr
        refine ⟨hi2 ▸ (rfi_sublist p _).subset hr, ?_⟩
        have hnone := rfi_find?_self p _ (h2 _ hain)
        rw [List.find?_eq_none] at hnone
        have := hnone r hr
        simpa using this
      · rw [if_neg hi2] at hr
        refine ⟨hr, ?_⟩
        intro hrp
        exact hi2 (by rw [← (h1 i hi r hr).2, hrp])
    rw [unregister_members s p r.tag info hTL]
    by_cases hrt : r.tag = info.tag
    · rw [if_pos hrt]
      exact (rps_mem_of_ne p r.ptr _ hrp.2).mpr (h6 i hi r hrp.1)
    · rw [if_neg hrt]
      exact h6 i hi r hrp.1
  · -- every group member still has a record with that tag
    intro j hj e2 he2 q hq
    rw [hlen_t] at hj
    have hfq := unregister_find s p q info hAL (h2 _ hain)
    rw [hbT j] at he2
    by_cases hj2 : j = hash_pointer info.tag s.tag_table.length
    · rw [if_pos hj2] at he2
      rcases ufe_mem_pairwise (fun e => { e with ptrs := remove_ptr_swap p e.ptrs }) info.tag _
        (h4 _ htin) e2 he2 with ⟨hin, hne⟩ | ⟨e0, he0, ht0, rfl⟩
      · have hqp : q ≠ p := by
          intro hqp
          subst hqp
          have h7q := h7 _ htin e2 hin q hq
          rw [hfind] at h7q
          exact hne (by simpa using h7q.symm)
        rw [hfq, if_neg hqp]
        exact h7 _ htin e2 hin q hq
      · have hq0 : q ∈ e0.ptrs := rps_subset p e0.ptrs hq
        have hqp : q ≠ p := by
          intro hqp
          subst hqp
          exact rps_not_mem q e0.ptrs (h5 _ htin e0 he0) hq
        rw [hfq, if_neg hqp]
        exact h7 _ htin e0 he0 q hq0
    · rw [if_neg hj2] at he2
      have hqp : q ≠ p := by
        intro hqp
        subst hqp
        have h7q := h7 j hj e2 he2 q hq
        rw [hfind] at h7q
        have : info.tag = e2.tag := by simpa using h7q
        exact hj2 (by rw [← h3 j hj e2 he2, ← this])
      rw [hfq, if_neg hqp]
      exact h7 j hj e2 he2 q hq

theorem pfree_tag_loop_freed_subset :
    ∀ (l : List Nat) (s : AllocState), (pfree_tag_loop s l).2 ⊆ l := by
  intro l
  induction l with
  | nil => intro s q hq; simp [pfree_tag_loop] at hq
  | cons p rest ih =>
    intro s q hq
    unfold pfree_tag_loop at hq
    cases hf : find_alloc_info s p with
    | none =>
      rw [hf] at hq
      exact List.mem_cons_of_mem _ (ih s hq)
    | some info =>
      rw [hf] at hq
      simp only [] at hq
      rcases List.mem_cons.mp hq with rfl | hm
      · exact List.mem_cons_self _ _
      · exact List.mem_cons_of_mem _ (ih _ hm)

theorem pfree_tag_loop_spec (t : Nat) :
    ∀ (l : List Nat) (s : AllocState), WF s → l.Nodup →
      (∀ q ∈ l, ∃ i, find_alloc_info s q = some i ∧ i.tag = t) →
      WF (pfree_tag_loop s l).1 ∧
      (∀ q ∈ l, find_alloc_info (pfree_tag_loop s l).1 q = none) ∧
      (∀ q, q ∉ l → find_alloc_info (pfree_tag_loop s l).1 q = find_alloc_info s q) ∧
      (∀ u q, q ∈ tag_members (pfree_tag_loop s l).1 u → q ∈ tag_members s u) := by
  intro l
  induction l with
  | nil =>
    intro s hWF _ _
    exact ⟨hWF, by simp, fun q _ => rfl, fun u q hq => hq⟩
  | cons p rest ih =>
    intro s hWF hnd hrec
    obtain ⟨info, hfind, htag⟩ := hrec p (List.mem_cons_self _ _)
    have hnd2 := List.nodup_cons.mp hnd
    have hAL : 0 < s.alloc_table.length := hWF.1
    have hTL : 0 < s.tag_table.length := hWF.2.1
    have hpw := hWF.2.2.2.1 _ (hash_lt p _ hAL)
    have hs1 : (unregister_allocation s p).2 =
        remove_ptr_from_tag_state (alloc_unlink_state s p) p info.tag := by
      rw [unregister_eq s p info hfind]
    have hfind1 : ∀ q, find_alloc_info (unregister_allocation s p).2 q =
        if q = p then none else find_alloc_info s q := by
      intro q
      rw [hs1]
      exact unregister_find s p q info hAL hpw
    have hmem1 : ∀ u, tag_members (unregister_allocation s p).2 u =
        if u = info.tag then remove_ptr_swap p (tag_members s u) else tag_members s u := by
      intro u
      rw [hs1]
      exact unregister_members s p u info hTL
    have hWF1 : WF (unregister_allocation s p).2 := by
      rw [hs1]
      exact WF_unregister s p info ⟨hAL, hTL, hWF.2.2.1, hWF.2.2.2.1, hWF.2.2.2.2.1,
        hWF.2.2.2.2.2.1, hWF.2.2.2.2.2.2.1, hWF.2.2.2.2.2.2.2.1, hWF.2.2.2.2.2.2.2.2⟩ hfind
    have hloop : pfree_tag_loop s (p :: rest) =
        ((pfree_tag_loop (unregister_allocation s p).2 rest).1,
          p :: (pfree_tag_loop (unregister_allocation s p).2 rest).2) := by
      conv =>
        lhs
        unfold pfree_tag_loop
      rw [hfind]
    obtain ⟨ihWF, ihdead, ihother, ihmem⟩ :=
      ih (unregister_allocation s p).2 hWF1 hnd2.2 (by
        intro q hq
        obtain ⟨i2, hf2, ht2⟩ := hrec q (List.mem_cons_of_mem _ hq)
        refine ⟨i2, ?_, ht2⟩
        rw [hfind1 q, if_neg (fun hqp => hnd2.1 (by rw [hqp] at hq; exact hq))]
        exact hf2)
    rw [hloop]
    refine ⟨ihWF, ?_, ?_, ?_⟩
    · intro q hq
      rcases List.mem_cons.mp hq with rfl | hm
      · rw [ihother q hnd2.1, hfind1 q, if_pos rfl]
      · exact ihdead q hm
    · intro q hq
      rw [List.mem_cons] at hq
      push_neg at hq
      rw [ihother q hq.2, hfind1 q, if_neg hq.1]
    · intro u q hq
      have hq1 := ihmem u q hq
      rw [hmem1 u] at hq1
      by_cases hu : u = info.tag
      · rw [if_pos hu] at hq1
        exact rps_subset p _ hq1
      · rw [if_neg hu] at hq1
        exact hq1

theorem foldl_ptag_size_zero (s2 : AllocState) (l : List Nat)
    (h : ∀ q ∈ l, find_alloc_info s2 q = none) :
    ∀ acc, l.foldl (fun acc p =>
      match find_alloc_info s2 p with
      | some info => acc + info.size
      | none => acc) acc = acc := by
  induction l with
  | nil => intro acc; rfl
  | cons p rest ih =>
    intro acc
    have hp := h p (List.mem_cons_self _ _)
    simp only [List.foldl, hp]
    exact ih (fun q hq => h q (List.mem_cons_of_mem _ hq)) acc

theorem pfree_tag_freed_subset (s : AllocState) (t : Nat) :
    (pfree_tag s t).2 ⊆ tag_members s t := by
  unfold pfree_tag tag_members
  cases hfe : find_tag_entry s t with
  | none => simp
  | some e =>
    simp only []
    by_cases h0 : e.ptrs.length = 0
    · rw [if_pos h0]
      simp
    · rw [if_neg h0]
      exact pfree_tag_loop_freed_subset e.ptrs s

/-- Claim C1: for every tag `t` and address `a` that is live under `t`, after
`pfree_tag t` the registry has no record for `a` and `ptag_size t` is 0. -/
theorem pfree_tag_clears (s : AllocState) (t a : Nat) (info : alloc_info)
    (hWF : WF s) (hfind : find_alloc_info s a = some info) (htag : info.tag = t) :
    find_alloc_info (pfree_tag s t).1 a = none ∧ ptag_size (pfree_tag s t).1 t = 0 := by
  have hWF2 := hWF
  obtain ⟨hAL, hTL, h1, h2, h3, h4, h5, h6, h7⟩ := hWF2
  obtain ⟨hp, hptr, hmem⟩ := find_alloc_info_some s a info hfind
  have hment : info.ptr ∈ tag_members s info.tag := h6 _ (hash_lt a _ hAL) info hmem
  rw [htag, hptr] at hment
  have hfe : ∃ e, find_tag_entry s t = some e := by
    cases hh : find_tag_entry s t with
    | none =>
      unfold tag_members at hment
      rw [hh] at hment
      simp at hment
    | some e => exact ⟨e, rfl⟩
  obtain ⟨e, hfe⟩ := hfe
  obtain ⟨hetag, hemem⟩ := find_tag_entry_some s t e hfe
  have hmem_e : a ∈ e.ptrs := by
    unfold tag_members at hment
    rw [hfe] at hment
    exact hment
  have hne : e.ptrs.length ≠ 0 := by
    intro h0
    rw [List.length_eq_zero] at h0
    rw [h0] at hmem_e
    simp at hmem_e
  have hpt : pfree_tag s t = pfree_tag_loop s e.ptrs := by
    unfold pfree_tag
    rw [hfe]
    simp only []
    rw [if_neg hne]
  have hnd : e.ptrs.Nodup := h5 _ (hash_lt t _ hTL) e hemem
  have hall : ∀ q ∈ e.ptrs, ∃ i, find_alloc_info s q = some i ∧ i.tag = t := by
    intro q hq
    have h7q := h7 _ (hash_lt t _ hTL) e hemem q hq
    rw [hetag] at h7q
    cases hfq : find_alloc_info s q with
    | none =>
      rw [hfq] at h7q
      simp at h7q
    | some i2 =>
      rw [hfq] at h7q
      exact ⟨i2, rfl, by simpa using h7q⟩
  obtain ⟨lWF, ldead, lother, lmem⟩ := pfree_tag_loop_spec t e.ptrs s hWF hnd hall
  rw [hpt]
  refine ⟨ldead a hmem_e, ?_⟩
  unfold ptag_size
  by_cases ht0 : t = 0
  · rw [if_pos ht0]
  · rw [if_neg ht0]
    cases hfe2 : find_tag_entry (pfree_tag_loop s e.ptrs).1 t with
    | none => rfl
    | some e2 =>
      have hdead2 : ∀ q ∈ e2.ptrs, find_alloc_info (pfree_tag_loop s e.ptrs).1 q = none := by
        intro q hq
        have hq1 : q ∈ tag_members (pfree_tag_loop s e.ptrs).1 t := by
          unfold tag_members
          rw [hfe2]
          exact hq
        have hq2 := lmem t q hq1
        unfold tag_members at hq2
        rw [hfe] at hq2
        exact ldead q hq2
      exact foldl_ptag_size_zero _ _ hdead2 0

/-- Claim C2: after explicitly releasing `a`, the address is no longer a
member of its tag's group, and a subsequent `pfree_tag t` does not free it
again (it is absent from the list of pointers the group sweep releases). -/
theorem pfree_then_pfree_tag_no_double (s : AllocState) (t a : Nat) (info : alloc_info)
    (hWF : WF s) (hfind : find_alloc_info s a = some info) (htag : info.tag = t) :
    a ∉ tag_members (pfree s a) t ∧ a ∉ (pfree_tag (pfree s a) t).2 := by
  have hWF2 := hWF
  obtain ⟨hAL, hTL, h1, h2, h3, h4, h5, h6, h7⟩ := hWF2
  obtain ⟨hp, hptr, hmem⟩ := find_alloc_info_some s a info hfind
  have hpfree : pfree s a = (unregister_allocation s a).2 := by
    unfold pfree
    rw [if_neg hp]
  have hmem1 : tag_members (pfree s a) t = remove_ptr_swap a (tag_members s t) := by
    rw [hpfree, unregister_eq s a info hfind]
    rw [unregister_members s a t info hTL]
    rw [if_pos htag.symm]
  have hnd : (tag_members s t).Nodup := by
    unfold tag_members
    cases hfe : find_tag_entry s t with
    | none => simp
    | some e => exact h5 _ (hash_lt t _ hTL) e (find_tag_entry_some s t e hfe).2
  have hnot : a ∉ tag_members (pfree s a) t := by
    rw [hmem1]
    exact rps_not_mem a _ hnd
  exact ⟨hnot, fun hfr => hnot (pfree_tag_freed_subset _ t hfr)⟩

/-- A registry state with two live allocations (16 and 24 bytes) under tag
7, at addresses 40 and 48. -/
def demo_state : AllocState := pmalloc (pmalloc allocator_init 16 7 40) 24 7 48

/-- Witness for claim C1 on the demo state. -/
theorem pfree_tag_clears_witness :
    find_alloc_info (pfree_tag demo_state 7).1 40 = none ∧
      ptag_size (pfree_tag demo_state 7).1 7 = 0 :=
  pfree_tag_clears demo_state 7 40 { ptr := 40, size := 16, tag := 7 }
    (by decide) (by decide) rfl

/-- Witness for claim C2 on the demo state. -/
theorem pfree_then_pfree_tag_no_double_witness :
    40 ∉ tag_members (pfree demo_state 40) 7 ∧
      40 ∉ (pfree_tag (pfree demo_state 40) 7).2 :=
  pfree_then_pfree_tag_no_double demo_state 7 40 { ptr := 40, size := 16, tag := 7 }
    (by decide) (by decide) rfl

theorem WF_register (s : AllocState) (p sz t : Nat)
    (hWF : WF s) (hp : p ≠ 0) (hfresh : find_alloc_info s p = none) :
    WF (register_allocation s p sz t) := by
  have hWF2 := hWF
  obtain ⟨hAL, hTL, h1, h2, h3, h4, h5, h6, h7⟩ := hWF2
  have hain : hash_pointer p s.alloc_table.length < s.alloc_table.length :=
    hash_lt _ _ hAL
  have htin : hash_pointer t s.tag_table.length < s.tag_table.length :=
    hash_lt _ _ hTL
  have hnb : ∀ x ∈ bucketA s (hash_pointer p s.alloc_table.length), x.ptr ≠ p := by
    intro x hx
    unfold find_alloc_info at hfresh
    rw [if_neg hp, List.find?_eq_none] at hfresh
    have := hfresh x hx
    simpa using this
  have hnomem : ∀ j < s.tag_table.length, ∀ e ∈ bucketT s j, p ∉ e.ptrs := by
    intro j hj e he hpe
    have := h7 j hj e he p hpe
    rw [hfresh] at this
    simp at this
  have hs'a : (register_allocation s p sz t).alloc_table =
      s.alloc_table.set (hash_pointer p s.alloc_table.length)
        ({ ptr := p, size := sz, tag := t } :: bucketA s (hash_pointer p s.alloc_table.length)) := by
    unfold register_allocation
    simp only []
    rw [tas_alloc_table]
    rfl
  have hlen_a : (register_allocation s p sz t).alloc_table.length = s.alloc_table.length := by
    rw [hs'a]
    simp
  have hbA : ∀ i, bucketA (register_allocation s p sz t) i =
      if i = hash_pointer p s.alloc_table.length
      then { ptr := p, size := sz, tag := t } :: bucketA s (hash_pointer p s.alloc_table.length)
      else bucketA s i := by
    intro i
    unfold bucketA
    rw [hs'a]
    by_cases hi : i = hash_pointer p s.alloc_table.length
    · rw [if_pos hi, hi, getD_set_self _ _ _ _ hain]
      rfl
    · rw [if_neg hi, getD_set_ne _ _ _ _ _ (fun hh => hi hh.symm)]
  have hfind_self := find_alloc_info_register_self s p sz t hp hAL
  have hfind_other := fun q hq => find_alloc_info_register_other s p sz t q hq hAL
  have hmem_self := tag_members_register_self s p sz t hTL
  have hmem_other := fun u hu => tag_members_register_other s p sz t u hTL hu
  cases hfe : find_tag_entry s t with
  | some e =>
    have hs't : (register_allocation s p sz t).tag_table =
        s.tag_table.set (hash_pointer t s.tag_table.length)
          (update_first_entry (fun e => { e with ptrs := e.ptrs ++ [p] }) t
            (bucketT s (hash_pointer t s.tag_table.length))) := by
      unfold register_allocation tag_add_state
      simp only []
      rw [show find_tag_entry { s with
          alloc_table := s.alloc_table.set (hash_pointer p s.alloc_table.length)
            ({ ptr := p, size := sz, tag := t } :: s.alloc_table.getD
              (hash_pointer p s.alloc_table.length) []),
          alloc_count := s.alloc_count + 1 } t = some e from hfe]
      rfl
    have hlen_t : (register_allocation s p sz t).tag_table.length = s.tag_table.length := by
      rw [hs't]
      simp
    have hbT : ∀ j, bucketT (register_allocation s p sz t) j =
        if j = hash_pointer t s.tag_table.length
        then update_first_entry (fun e => { e with ptrs := e.ptrs ++ [p] }) t
          (bucketT s (hash_pointer t s.tag_table.length))
        else bucketT s j := by
      intro j
      unfold bucketT
      rw [hs't]
      by_cases hj : j = hash_pointer t s.tag_table.length
      · rw [if_pos hj, hj, getD_set_self _ _ _ _ htin]
        rfl
      · rw [if_neg hj, getD_set_ne _ _ _ _ _ (fun hh => hj hh.symm)]
    refine ⟨by rw [hlen_a]; exact hAL, by rw [hlen_t]; exact hTL, ?_, ?_, ?_, ?_, ?_, ?_, ?_⟩
    · intro i hi r hr
      rw [hlen_a] at hi ⊢
      rw [hbA i] at hr
      by_cases hi2 : i = hash_pointer p s.alloc_table.length
      · rw [if_pos hi2] at hr
        rcases List.mem_cons.mp hr with rfl | hm
        · exact ⟨hp, hi2.symm⟩
        · exact h1 i hi r (hi2 ▸ hm)
      · rw [if_neg hi2] at hr
        exact h1 i hi r hr
    · intro i hi
      rw [hlen_a] at hi
      rw [hbA i]
      by_cases hi2 : i = hash_pointer p s.alloc_table.length
      · rw [if_pos hi2]
        rw [List.pairwise_cons]
        exact ⟨fun x hx => Ne.symm (hnb x hx), h2 _ hain⟩
      · rw [if_neg hi2]
        exact h2 i hi
    · intro j hj e2 he2
      rw [hlen_t] at hj ⊢
      rw [hbT j] at he2
      by_cases hj2 : j = hash_pointer t s.tag_table.length
      · rw [if_pos hj2] at he2
        rcases ufe_mem (fun e => { e with ptrs := e.ptrs ++ [p] }) t _ e2 he2
          with hin | ⟨e0, he0, ht0, rfl⟩
        · exact hj2 ▸ h3 _ htin e2 hin
        · exact hj2 ▸ h3 _ htin e0 he0
      · rw [if_neg hj2] at he2
        exact h3 j hj e2 he2
    · intro j hj
      rw [hlen_t] at hj
      rw [hbT j]
      by_cases hj2 : j = hash_pointer t s.tag_table.length
      · rw [if_pos hj2]
        have hmt := ufe_map_tag (fun e => { e with ptrs := e.ptrs ++ [p] }) t
          (bucketT s (hash_pointer t s.tag_table.length)) (fun e2 => rfl)
        have h9 : ((update_first_entry (fun e => { e with ptrs := e.ptrs ++ [p] }) t
            (bucketT s (hash_pointer t s.tag_table.length))).map
              tag_entry.tag).Pairwise (fun a b => a ≠ b) := by
          rw [hmt]
          exact List.pairwise_map.mpr (h4 _ htin)
        exact List.pairwise_map.mp h9
      · rw [if_neg hj2]
        exact h4 j hj
    · intro j hj e2 he2
      rw [hlen_t] at hj
      rw [hbT j] at he2
      by_cases hj2 : j = hash_pointer t s.tag_table.length
      · rw [if_pos hj2] at he2
        rcases ufe_mem (fun e => { e with ptrs := e.ptrs ++ [p] }) t _ e2 he2
          with hin | ⟨e0, he0, ht0, rfl⟩
        · exact h5 _ htin e2 hin
        · rw [List.nodup_append]
          exact ⟨h5 _ htin e0 he0, List.nodup_singleton p,
            fun q hq hq2 => hnomem _ htin e0 he0
              (by rw [show q = p by simpa using hq2] at hq; exact hq)⟩
      · rw [if_neg hj2] at he2
        exact h5 j hj e2 he2
    · intro i hi r hr
      rw [hlen_a] at hi
      rw [hbA i] at hr
      by_cases hi2 : i = hash_pointer p s.alloc_table.length
      · rw [if_pos hi2] at hr
        rcases List.mem_cons.mp hr with rfl | hm
        · rw [hmem_self]
          exact List.mem_append_right _ (List.mem_singleton_self p)
        · have hr2 : r ∈ bucketA s i := hi2 ▸ hm
          by_cases hrt : r.tag = t
          · rw [hrt, hmem_self]
            exact List.mem_append_left _ (hrt ▸ h6 i hi r hr2)
          · rw [hmem_other _ hrt]
            exact h6 i hi r hr2
      · rw [if_neg hi2] at hr
        by_cases hrt : r.tag = t
        · rw [hrt, hmem_self]
          exact List.mem_append_left _ (hrt ▸ h6 i hi r hr)
        · rw [hmem_other _ hrt]
          exact h6 i hi r hr
    · intro j hj e2 he2 q hq
      rw [hlen_t] at hj
      rw [hbT j] at he2
      by_cases hj2 : j = hash_pointer t s.tag_table.length
      · rw [if_pos hj2] at he2
        rcases ufe_mem_pairwise (fun e => { e with ptrs := e.ptrs ++ [p] }) t _
          (h4 _ htin) e2 he2 with ⟨hin, hne⟩ | ⟨e0, he0, ht0, rfl⟩
        · have hqp : q ≠ p := fun hqp => hnomem _ htin e2 hin (hqp ▸ hq)
          rw [hfind_other q hqp]
          exact h7 _ htin e2 hin q hq
        · rcases List.mem_append.mp hq with hq0 | hq1
          · have hqp : q ≠ p := fun hqp => hnomem _ htin e0 he0 (hqp ▸ hq0)
            rw [hfind_other q hqp]
            exact h7 _ htin e0 he0 q hq0
          · have hqp : q = p := by simpa using hq1
            rw [hqp, hfind_self]
            simp [ht0]
      · rw [if_neg hj2] at he2
        have hqp : q ≠ p := fun hqp => hnomem j hj e2 he2 (hqp ▸ hq)
        rw [hfind_other q hqp]
        exact h7 j hj e2 he2 q hq
  | none =>
    have hs't : (register_allocation s p sz t).tag_table =
        s.tag_table.set (hash_pointer t s.tag_table.length)
          ({ tag := t, ptrs := [p] } :: bucketT s (hash_pointer t s.tag_table.length)) := by
      unfold register_allocation tag_add_state
      simp only []
      rw [show find_tag_entry { s with
          alloc_table := s.alloc_table.set (hash_pointer p s.alloc_table.length)
            ({ ptr := p, size := sz, tag := t } :: s.alloc_table.getD
              (hash_pointer p s.alloc_table.length) []),
          alloc_count := s.alloc_count + 1 } t = none from hfe]
      rfl
    have hlen_t : (register_allocation s p sz t).tag_table.length = s.tag_table.length := by
      rw [hs't]
      simp
    have hbT : ∀ j, bucketT (register_allocation s p sz t) j =
        if j = hash_pointer t s.tag_table.length
        then { tag := t, ptrs := [p] } :: bucketT s (hash_pointer t s.tag_table.length)
        else bucketT s j := by
      intro j
      unfold bucketT
      rw [hs't]
      by_cases hj : j = hash_pointer t s.tag_table.length
      · rw [if_pos hj, hj, getD_set_self _ _ _ _ htin]
        rfl
      · rw [if_neg hj, getD_set_ne _ _ _ _ _ (fun hh => hj hh.symm)]
    have hnt : ∀ e2 ∈ bucketT s (hash_pointer t s.tag_table.length), e2.tag ≠ t := by
      intro e2 he2
      unfold find_tag_entry at hfe
      rw [List.find?_eq_none] at hfe
      have := hfe e2 he2
      simpa using this
    refine ⟨by rw [hlen_a]; exact hAL, by rw [hlen_t]; exact hTL, ?_, ?_, ?_, ?_, ?_, ?_, ?_⟩
    · intro i hi r hr
      rw [hlen_a] at hi ⊢
      rw [hbA i] at hr
      by_cases hi2 : i = hash_pointer p s.alloc_table.length
      · rw [if_pos hi2] at hr
        rcases List.mem_cons.mp hr with rfl | hm
        · exact ⟨hp, hi2.symm⟩
        · exact h1 i hi r (hi2 ▸ hm)
      · rw [if_neg hi2] at hr
        exact h1 i hi r hr
    · intro i hi
      rw [hlen_a] at hi
      rw [hbA i]
      by_cases hi2 : i = hash_pointer p s.alloc_table.length
      · rw [if_pos hi2]
        rw [List.pairwise_cons]
        exact ⟨fun x hx => Ne.symm (hnb x hx), h2 _ hain⟩
      · rw [if_neg hi2]
        exact h2 i hi
    · intro j hj e2 he2
      rw [hlen_t] at hj ⊢
      rw [hbT j] at he2
      by_cases hj2 : j = hash_pointer t s.tag_table.length
      · rw [if_pos hj2] at he2
        rcases List.mem_cons.mp he2 with rfl | hm
        · exact hj2.symm
        · exact hj2 ▸ h3 _ htin e2 (hj2 ▸ hm)
      · rw [if_neg hj2] at he2
        exact h3 j hj e2 he2
    · intro j hj
      rw [hlen_t] at hj
      rw [hbT j]
      by_cases hj2 : j = hash_pointer t s.tag_table.length
      · rw [if_pos hj2]
        rw [List.pairwise_cons]
        exact ⟨fun e2 he2 => Ne.symm (hnt e2 he2), h4 _ htin⟩
      · rw [if_neg hj2]
        exact h4 j hj
    · intro j hj e2 he2
      rw [hlen_t] at hj
      rw [hbT j] at he2
      by_cases hj2 : j = hash_pointer t s.tag_table.length
      · rw [if_pos hj2] at he2
        rcases List.mem_cons.mp he2 with rfl | hm
        · exact List.nodup_singleton p
        · exact h5 _ htin e2 hm
      · rw [if_neg hj2] at he2
        exact h5 j hj e2 he2
    · intro i hi r hr
      rw [hlen_a] at hi
      rw [hbA i] at hr
      by_cases hi2 : i = hash_pointer p s.alloc_table.length
      · rw [if_pos hi2] at hr
        rcases List.mem_cons.mp hr with rfl | hm
        · rw [hmem_self]
          exact List.mem_append_right _ (List.mem_singleton_self p)
        · have hr2 : r ∈ bucketA s i := hi2 ▸ hm
          by_cases hrt : r.tag = t
          · rw [hrt, hmem_self]
            exact List.mem_append_left _ (hrt ▸ h6 i hi r hr2)
          · rw [hmem_other _ hrt]
            exact h6 i hi r hr2
      · rw [if_neg hi2] at hr
        by_cases hrt : r.tag = t
        · rw [hrt, hmem_self]
          exact List.mem_append_left _ (hrt ▸ h6 i hi r hr)
        · rw [hmem_other _ hrt]
          exact h6 i hi r hr
    · intro j hj e2 he2 q hq
      rw [hlen_t] at hj
      rw [hbT j] at he2
      by_cases hj2 : j = hash_pointer t s.tag_table.length
      · rw [if_pos hj2] at he2
        rcases List.mem_cons.mp he2 with rfl | hm
        · have hqp : q = p := by simpa using hq
          rw [hqp, hfind_self]
          rfl
        · have hqp : q ≠ p := fun hqp => hnomem _ htin e2 hm (hqp ▸ hq)
          rw [hfind_other q hqp]
          exact h7 _ htin e2 hm q hq
      · rw [if_neg hj2] at he2
        have hqp : q ≠ p := fun hqp => hnomem j hj e2 he2 (hqp ▸ hq)
        rw [hfind_other q hqp]
        exact h7 j hj e2 he2 q hq

theorem prealloc_reloc_eq (s : AllocState) (p sz t np : Nat) (info : alloc_info)
    (hfind : find_alloc_info s p = some info) (hnp : np ≠ p) :
    prealloc s p sz t np =
      (some np, register_allocation
        (remove_ptr_from_tag_state (alloc_unlink_state s p) p info.tag) np sz t) := by
  obtain ⟨hp, hptr, hmem⟩ := find_alloc_info_some s p info hfind
  unfold prealloc
  rw [if_neg hp, hfind]
  simp only []
  rw [if_pos hnp]
  have h1 : (remove_first_info p
      (s.alloc_table.getD (hash_pointer p s.alloc_table.length) [])).1 = some info := by
    rw [rfi_fst]
    unfold find_alloc_info at hfind
    rw [if_neg hp] at hfind
    exact hfind
  rw [h1]

theorem prealloc_inplace_eq (s : AllocState) (p sz t : Nat) (info : alloc_info)
    (hfind : find_alloc_info s p = some info) :
    prealloc s p sz t p = (some p, prealloc_inplace_state s p sz t info.tag) := by
  obtain ⟨hp, hptr, hmem⟩ := find_alloc_info_some s p info hfind
  unfold prealloc
  rw [if_neg hp, hfind]
  simp only []
  rw [if_neg (fun h => h rfl)]

theorem member_tag_unique (s : AllocState) (a u : Nat) (info : alloc_info)
    (hWF : WF s) (hfind : find_alloc_info s a = some info)
    (hu : a ∈ tag_members s u) : u = info.tag := by
  obtain ⟨hAL, hTL, h1, h2, h3, h4, h5, h6, h7⟩ := hWF
  unfold tag_members at hu
  cases hfe : find_tag_entry s u with
  | none =>
    rw [hfe] at hu
    simp at hu
  | some e2 =>
    rw [hfe] at hu
    obtain ⟨he2tag, he2mem⟩ := find_tag_entry_some s u e2 hfe
    have h7a := h7 _ (hash_lt u _ hTL) e2 he2mem a hu
    rw [hfind] at h7a
    rw [← he2tag]
    have h7b : info.tag = e2.tag := by simpa using h7a
    exact h7b.symm

theorem tag_members_nodup (s : AllocState) (u : Nat) (hWF : WF s) :
    (tag_members s u).Nodup := by
  obtain ⟨hAL, hTL, h1, h2, h3, h4, h5, h6, h7⟩ := hWF
  unfold tag_members
  cases hfe : find_tag_entry s u with
  | none => simp
  | some e => exact h5 _ (hash_lt u _ hTL) e (find_tag_entry_some s u e hfe).2

theorem find_node_update_self (s1 s2 : AllocState) (a sz t : Nat) (info : alloc_info)
    (hAL : 0 < s1.alloc_table.length)
    (hfind : find_alloc_info s1 a = some info)
    (hs2 : s2.alloc_table = s1.alloc_table.set (hash_pointer a s1.alloc_table.length)
      (update_first_info (fun i => { i with size := sz, tag := t }) a
        (s1.alloc_table.getD (hash_pointer a s1.alloc_table.length) []))) :
    find_alloc_info s2 a = some { ptr := info.ptr, size := sz, tag := t } := by
  obtain ⟨hp, hptr, hmem⟩ := find_alloc_info_some s1 a info hfind
  unfold find_alloc_info
  rw [if_neg hp, hs2]
  simp only [List.length_set]
  rw [getD_set_self _ _ _ _ (hash_lt _ _ hAL)]
  rw [ufi_find?_self (fun i => { i with size := sz, tag := t }) a _ (fun i => rfl)]
  unfold find_alloc_info at hfind
  rw [if_neg hp] at hfind
  rw [hfind]
  rfl

theorem pis_alloc_table (s : AllocState) (p sz t ot : Nat) :
    (prealloc_inplace_state s p sz t ot).alloc_table =
      (if t ≠ ot then tag_add_state (remove_ptr_from_tag_state s p ot) t p
          (find_tag_entry s t).isSome else s).alloc_table.set
        (hash_pointer p s.alloc_table.length)
        (update_first_info (fun i => { i with size := sz, tag := t }) p
          ((if t ≠ ot then tag_add_state (remove_ptr_from_tag_state s p ot) t p
              (find_tag_entry s t).isSome else s).alloc_table.getD
            (hash_pointer p s.alloc_table.length) [])) := rfl

theorem tag_members_pis (s : AllocState) (p sz t ot u : Nat) :
    tag_members (prealloc_inplace_state s p sz t ot) u =
      tag_members (if t ≠ ot then tag_add_state (remove_ptr_from_tag_state s p ot) t p
        (find_tag_entry s t).isSome else s) u := rfl

theorem pis_base_alloc_table (s : AllocState) (p t ot : Nat) :
    (if t ≠ ot then tag_add_state (remove_ptr_from_tag_state s p ot) t p
        (find_tag_entry s t).isSome else s).alloc_table = s.alloc_table := by
  by_cases h : t ≠ ot
  · rw [if_pos h, tas_alloc_table, rpfts_alloc_table]
  · rw [if_neg h]

theorem pis_find_self (s : AllocState) (p sz t ot : Nat) (info : alloc_info)
    (hAL : 0 < s.alloc_table.length)
    (hfind : find_alloc_info s p = some info) :
    find_alloc_info (prealloc_inplace_state s p sz t ot) p =
      some { ptr := info.ptr, size := sz, tag := t } := by
  have hsa := pis_base_alloc_table s p t ot
  have hfind1 : find_alloc_info (if t ≠ ot then
      tag_add_state (remove_ptr_from_tag_state s p ot) t p
        (find_tag_entry s t).isSome else s) p = some info := by
    by_cases h : t ≠ ot
    · rw [if_pos h, find_alloc_info_tas, find_alloc_info_rpfts]
      exact hfind
    · rw [if_neg h]
      exact hfind
  exact find_node_update_self
    (if t ≠ ot then tag_add_state (remove_ptr_from_tag_state s p ot) t p
      (find_tag_entry s t).isSome else s)
    (prealloc_inplace_state s p sz t ot) p sz t info
    (by rw [hsa]; exact hAL) hfind1
    (by rw [pis_alloc_table, hsa])

/-- Claim C3: when `prealloc` relocates (`realloc` returned a fresh
address), the old address loses its record and all group memberships while
the new address carries the one record with the requested size and tag and
joins the requested tag's group, the registry staying well-formed (first
conjunct, so the record for the new address is unique); when it resizes in
place, the record is overwritten with the new size and tag, and the address
moves between tag groups exactly when the tag changed (second conjunct). -/
theorem prealloc_spec (s : AllocState) (a sz t np : Nat) (info : alloc_info)
    (hWF : WF s) (hfind : find_alloc_info s a = some info) :
    (np ≠ a → np ≠ 0 → find_alloc_info s np = none →
      (prealloc s a sz t np).1 = some np ∧
      find_alloc_info (prealloc s a sz t np).2 a = none ∧
      (∀ u, a ∉ tag_members (prealloc s a sz t np).2 u) ∧
      find_alloc_info (prealloc s a sz t np).2 np = some { ptr := np, size := sz, tag := t } ∧
      np ∈ tag_members (prealloc s a sz t np).2 t ∧
      WF (prealloc s a sz t np).2) ∧
    ((prealloc s a sz t a).1 = some a ∧
     find_alloc_info (prealloc s a sz t a).2 a = some { ptr := a, size := sz, tag := t } ∧
     (t ≠ info.tag → a ∉ tag_members (prealloc s a sz t a).2 info.tag ∧
        a ∈ tag_members (prealloc s a sz t a).2 t) ∧
     (t = info.tag → ∀ u, tag_members (prealloc s a sz t a).2 u = tag_members s u)) := by
  obtain ⟨hp, hptr, hmemb⟩ := find_alloc_info_some s a info hfind
  have hAL : 0 < s.alloc_table.length := hWF.1
  have hTL : 0 < s.tag_table.length := hWF.2.1
  have hpw := hWF.2.2.2.1 _ (hash_lt a _ hAL)
  constructor
  · intro hnpa hnp0 hfresh
    rw [prealloc_reloc_eq s a sz t np info hfind hnpa]
    have hWFU : WF (remove_ptr_from_tag_state (alloc_unlink_state s a) a info.tag) :=
      WF_unregister s a info hWF hfind
    have hULA : 0 < (remove_ptr_from_tag_state (alloc_unlink_state s a) a
        info.tag).alloc_table.length := hWFU.1
    have hULT : 0 < (remove_ptr_from_tag_state (alloc_unlink_state s a) a
        info.tag).tag_table.length := hWFU.2.1
    have hfindU : ∀ q, find_alloc_info (remove_ptr_from_tag_state (alloc_unlink_state s a) a
        info.tag) q = if q = a then none else find_alloc_info s q :=
      fun q => unregister_find s a q info hAL hpw
    have hmemU : ∀ u, tag_members (remove_ptr_from_tag_state (alloc_unlink_state s a) a
        info.tag) u =
          if u = info.tag then remove_ptr_swap a (tag_members s u) else tag_members s u :=
      fun u => unregister_members s a u info hTL
    have hfreshU : find_alloc_info (remove_ptr_from_tag_state (alloc_unlink_state s a) a
        info.tag) np = none := by
      rw [hfindU np, if_neg hnpa]
      exact hfresh
    refine ⟨rfl, ?_, ?_, ?_, ?_, ?_⟩
    · rw [find_alloc_info_register_other _ np sz t a (Ne.symm hnpa) hULA,
        hfindU a, if_pos rfl]
    · intro u hau
      by_cases hut : u = t
      · rw [hut, tag_members_register_self _ np sz t hULT] at hau
        rcases List.mem_append.mp hau with h | h
        · rw [hmemU t] at h
          by_cases hti : t = info.tag
          · rw [if_pos hti] at h
            exact rps_not_mem a _ (tag_members_nodup s t hWF) h
          · rw [if_neg hti] at h
            exact hti (member_tag_unique s a t info hWF hfind h)
        · have h2 : a = np := by simpa using h
          exact hnpa h2.symm
      · rw [tag_members_register_other _ np sz t u hULT hut, hmemU u] at hau
        by_cases hui : u = info.tag
        · rw [if_pos hui] at hau
          exact rps_not_mem a _ (tag_members_nodup s u hWF) hau
        · rw [if_neg hui] at hau
          exact hui (member_tag_unique s a u info hWF hfind hau)
    · exact find_alloc_info_register_self _ np sz t hnp0 hULA
    · rw [tag_members_register_self _ np sz t hULT]
      exact List.mem_append_right _ (List.mem_singleton_self np)
    · exact WF_register _ np sz t hWFU hnp0 hfreshU
  · rw [prealloc_inplace_eq s a sz t info hfind]
    have hTLr : 0 < (remove_ptr_from_tag_state s a info.tag).tag_table.length := by
      rw [rpfts_tag_length]
      exact hTL
    refine ⟨rfl, ?_, ?_, ?_⟩
    · show find_alloc_info (prealloc_inplace_state s a sz t info.tag) a =
        some { ptr := a, size := sz, tag := t }
      have h2 := pis_find_self s a sz t info.tag info hAL hfind
      rw [hptr] at h2
      exact h2
    · intro hti
      constructor
      · show a ∉ tag_members (prealloc_inplace_state s a sz t info.tag) info.tag
        rw [tag_members_pis, if_pos hti]
        rw [tag_members_tas_other _ t a info.tag _ hTLr (Ne.symm hti)]
        rw [tag_members_rpfts_self s a info.tag hTL]
        exact rps_not_mem a _ (tag_members_nodup s info.tag hWF)
      · show a ∈ tag_members (prealloc_inplace_state s a sz t info.tag) t
        rw [tag_members_pis, if_pos hti]
        rw [show (find_tag_entry s t).isSome =
            (find_tag_entry (remove_ptr_from_tag_state s a info.tag) t).isSome by
          rw [find_tag_entry_rpfts_other s a info.tag t hTL hti]]
        rw [tag_members_tas_self _ t a hTLr]
        exact List.mem_append_right _ (List.mem_singleton_self a)
    · intro hti u
      show tag_members (prealloc_inplace_state s a sz t info.tag) u = tag_members s u
      rw [tag_members_pis, if_neg (fun hh => hh hti)]

/-- Witness for claim C3 on the demo state: reallocating the 16-byte block
at address 40 to 64 bytes under tag 9, relocated to the fresh address 56,
leaves no trace of 40 and registers 56 with the new size and tag. -/
theorem prealloc_spec_witness :
    WF demo_state ∧
    find_alloc_info demo_state 40 = some { ptr := 40, size := 16, tag := 7 } ∧
    find_alloc_info (prealloc demo_state 40 64 9 56).2 40 = none ∧
    find_alloc_info (prealloc demo_state 40 64 9 56).2 56 =
      some { ptr := 56, size := 64, tag := 9 } ∧
    56 ∈ tag_members (prealloc demo_state 40 64 9 56).2 9 :=
  ⟨by decide, by decide,
   ((prealloc_spec demo_state 40 64 9 56 { ptr := 40, size := 16, tag := 7 }
      (by decide) (by decide)).1 (by decide) (by decide) (by decide)).2.1,
   ((prealloc_spec demo_state 40 64 9 56 { ptr := 40, size := 16, tag := 7 }
      (by decide) (by decide)).1 (by decide) (by decide) (by decide)).2.2.2.1,
   ((prealloc_spec demo_state 40 64 9 56 { ptr := 40, size := 16, tag := 7 }
      (by decide) (by decide)).1 (by decide) (by decide) (by decide)).2.2.2.2.1⟩
